import Mathlib

/-!
Verification development for the jobcontrol build/job orchestration engine.

The definitions below are shallow embeddings of the Python source:

- `jobcontrol/core.py` (JobControl, JobInfo, BuildInfo, JobExecutionContext)
- `jobcontrol/ext/memory.py` (MemoryStorage, the in-memory reference backend)
- `jobcontrol/utils/__init__.py` (ProgressReport)
- `jobcontrol/config.py` (JobControlConfig, BuildConfig, Retval)

Python machine-level detail is modelled explicitly: keyword-argument binding
of storage calls is embedded as records of optional arguments (a keyword not
in the callee signature raises TypeError, exactly as in Python), exceptions
are `Except` values, the execution-context stack is an explicit list, and
`copy.deepcopy` is modelled over an explicit heap of addressed nodes.

Parts of the repository that are not in the provided sources
(`jobcontrol/interfaces.py` with `StorageBase`, and
`jobcontrol/utils/depgraph.py` with `resolve_deps`) are modelled from the
specification; each such definition carries a doc comment starting with
`Modelled from the spec:`.
-/

/-- Kinds of Python exceptions that appear in the embedded code paths.
`skipBuild`, `missingDependencies`, `notFound` and `cycleDetected` are the
exception classes of `jobcontrol/exceptions.py`; the rest are builtin
Python exception kinds raised by the embedded code. -/
inductive PyErr where
  | notFound (msg : String)
  | missingDependencies (msg : String)
  | skipBuild
  | cycleDetected
  | valueError (msg : String)
  | typeError (msg : String)
  | keyError (msg : String)
  | importError (msg : String)
  | serializationError (msg : String)
  | other (msg : String)
deriving DecidableEq, Repr

mutual
/-- Python values that can occur in a job configuration's `args`/`kwargs`:
atoms, lists, tuples, dicts (string keys) and the `Retval` placeholder of
`jobcontrol/config.py`. -/
inductive PyVal where
  | none
  | int (n : Int)
  | str (s : String)
  | bool (b : Bool)
  | list (xs : PyList)
  | tuple (xs : PyList)
  | dict (kvs : PyKvs)
  | retval (job_id : String)

/-- A list of Python values (children of a list/tuple). -/
inductive PyList where
  | nil
  | cons (v : PyVal) (tl : PyList)

/-- Key-value pairs of a Python dict with string keys. -/
inductive PyKvs where
  | nil
  | cons (k : String) (v : PyVal) (tl : PyKvs)
end

/-- A job/build configuration as seen through `BuildConfig.__getitem__` of
`jobcontrol/config.py`: each field already carries the accessor's default
(`args` defaults to the empty tuple, `kwargs` to the empty dict,
`dependencies` to the empty list, `pinned_builds` to the empty dict,
`function` to None). -/
structure BuildCfg where
  function : Option String := Option.none
  args : PyList := PyList.nil
  kwargs : PyKvs := PyKvs.nil
  dependencies : List String := []
  pinned_builds : List (String × Nat) := []

/-- One entry of `JobControlConfig.jobs`: a job id together with its
`BuildConfig`. -/
structure JobDef where
  id : String
  cfg : BuildCfg

/-- The job list of a `JobControlConfig` (`config.jobs`). Job ids are unique
after `_validate_jobs`, but lookups below follow the source and just take
the first match. -/
abbrev JCConfig := List JobDef

/-- `JobControlConfig.get_job_config`: first job with the given id. -/
def get_job_config (cfg : JCConfig) (job_id : String) : Option JobDef :=
  cfg.find? (fun j => j.id = job_id)

/-- `JobControlConfig.get_job_deps`: the job's `dependencies`, or `[]` when
the job id is unknown. -/
def get_job_deps (cfg : JCConfig) (job_id : String) : List String :=
  match get_job_config cfg job_id with
  | Option.none => []
  | Option.some j => j.cfg.dependencies

/-- `JobControlConfig.get_job_revdeps`: ids of the jobs listing `job_id`
among their dependencies, in configuration order. -/
def get_job_revdeps (cfg : JCConfig) (job_id : String) : List String :=
  (cfg.filter (fun j => job_id ∈ j.cfg.dependencies)).map (fun j => j.id)

/-! ## Dependency graph construction (`JobControl._create_job_depgraph`) -/

/-- The depth-first exploration state of `_create_job_depgraph`: the
`processed` set and the `DEPGRAPH` adjacency table (insertion-ordered,
like a Python dict). -/
structure DepgraphSt where
  processed : Finset String
  depgraph : List (String × List String)

/-- Assignment `DEPGRAPH[k] = v` on an insertion-ordered association list:
overwrite in place if the key exists, else append. -/
def dgSet (dg : List (String × List String)) (k : String) (v : List String) :
    List (String × List String) :=
  if dg.any (fun e => e.1 = k) then
    dg.map (fun e => if e.1 = k then (k, v) else e)
  else dg ++ [(k, v)]

/-- Lookup `DEPGRAPH[k]`. -/
def dgGet (dg : List (String × List String)) (k : String) : Option (List String) :=
  (dg.find? (fun e => e.1 = k)).map (fun e => e.2)

/-- The revdep bookkeeping of the `complete` branch: ensure `DEPGRAPH[rdid]`
exists and append `jid` to it when missing. -/
def dgAddRevdep (dg : List (String × List String)) (rdid jid : String) :
    List (String × List String) :=
  let dg1 := match dgGet dg rdid with
    | Option.none => dgSet dg rdid []
    | Option.some _ => dg
  match dgGet dg1 rdid with
  | Option.none => dg1
  | Option.some l => if jid ∈ l then dg1 else dgSet dg1 rdid (l ++ [jid])

mutual
/-- `_explore_deps` of `JobControl._create_job_depgraph`, with an explicit
fuel argument standing for the recursion: returns `none` only when fuel runs
out.  The body is a direct transcription: if `jid` is already processed,
return; otherwise mark it processed *early, to prevent infinite recursion*,
record its dependency list, recurse into each dependency, and in `complete`
mode also wire up and recurse into the reverse dependencies. -/
def exploreDeps (fuel : Nat) (cfg : JCConfig) (complete : Bool) (jid : String)
    (st : DepgraphSt) : Option DepgraphSt :=
  match fuel with
  | 0 => Option.none
  | fuel' + 1 =>
    if jid ∈ st.processed then Option.some st
    else
      let st1 : DepgraphSt := ⟨insert jid st.processed, st.depgraph⟩
      let deps := get_job_deps cfg jid
      let st2 : DepgraphSt := ⟨st1.processed, dgSet st1.depgraph jid deps⟩
      match exploreDepsList fuel' cfg complete deps st2 with
      | Option.none => Option.none
      | Option.some st3 =>
        if complete then
          exploreRevdeps fuel' cfg complete jid (get_job_revdeps cfg jid) st3
        else Option.some st3
termination_by (fuel, 0)

/-- The `for dep in deps: _explore_deps(dep)` loop. -/
def exploreDepsList (fuel : Nat) (cfg : JCConfig) (complete : Bool)
    (deps : List String) (st : DepgraphSt) : Option DepgraphSt :=
  match deps with
  | [] => Option.some st
  | d :: ds =>
    match exploreDeps fuel cfg complete d st with
    | Option.none => Option.none
    | Option.some st' => exploreDepsList fuel cfg complete ds st'
termination_by (fuel, deps.length + 1)

/-- The `for rdid in revdeps` loop of the `complete` branch: per iteration,
update `DEPGRAPH[rdid]` and then recurse into `rdid`. -/
def exploreRevdeps (fuel : Nat) (cfg : JCConfig) (complete : Bool) (jid : String)
    (revdeps : List String) (st : DepgraphSt) : Option DepgraphSt :=
  match revdeps with
  | [] => Option.some st
  | r :: rs =>
    let st1 : DepgraphSt := ⟨st.processed, dgAddRevdep st.depgraph r jid⟩
    match exploreDeps fuel cfg complete r st1 with
    | Option.none => Option.none
    | Option.some st' => exploreRevdeps fuel cfg complete jid rs st'
termination_by (fuel, revdeps.length + 1)
end

/-- All job ids that the exploration can ever touch: the starting id, every
configured job id, and every id listed as a dependency. -/
def jobUniverse (cfg : JCConfig) (root : String) : Finset String :=
  insert root
    (cfg.foldr (fun j acc =>
      insert j.id (j.cfg.dependencies.foldr insert acc)) ∅)

/-- Fuel that suffices for the exploration to finish. -/
def depgraphFuel (cfg : JCConfig) (root : String) : Nat :=
  (jobUniverse cfg root).card + 1

/-- `JobControl._create_job_depgraph`: run the exploration from `job_id`
with fresh state. -/
def create_job_depgraph (cfg : JCConfig) (job_id : String) (complete : Bool) :
    Option (List (String × List String)) :=
  (exploreDeps (depgraphFuel cfg job_id) cfg complete job_id ⟨∅, []⟩).map
    (fun st => st.depgraph)

/-! ## Topological sorting (`jobcontrol.utils.depgraph.resolve_deps`)

`jobcontrol/utils/depgraph.py` is not among the provided sources; only its
caller `JobControl._resolve_deps` is.  The resolver is therefore modelled
from the specification. -/

/-- A node of the adjacency table is ready when none of its dependencies is
still pending (i.e. still present in `remaining`); dependencies already
emitted, or absent from the table, do not block it. -/
def kahnReady (remaining : List (String × List String)) (e : String × List String) :
    Bool :=
  e.2.all (fun d => ¬ remaining.any (fun e' => e'.1 = d))

/-- Modelled from the spec: `resolve_deps` produces a valid linear execution
order (topological sort) from a dependency adjacency table, breaking ties
deterministically by insertion order, and fails with `CycleDetected` on a
cyclic graph.  This is the standard ready-elimination construction: emit the
first node (in table order) whose dependencies are all emitted; if no node
is ready while entries remain, the graph is cyclic. -/
def kahnSort (remaining : List (String × List String)) (acc : List String) :
    Except PyErr (List String) :=
  if h : remaining = [] then Except.ok acc.reverse
  else
    match hf : remaining.find? (kahnReady remaining) with
    | Option.none => Except.error PyErr.cycleDetected
    | Option.some e =>
      kahnSort (remaining.erase e) (e.1 :: acc)
termination_by remaining.length
decreasing_by
  have hmem := List.mem_of_find?_eq_some hf
  simpa [List.length_erase_of_mem hmem] using
    Nat.sub_lt (List.length_pos.mpr (by simpa using h)) Nat.one_pos

/-- Modelled from the spec: the entry point `resolve_deps(depgraph, job_id)`
(§4.1: "A separate operation produces a valid linear execution order
(topological sort) from a dependency adjacency table"). -/
def resolve_deps (depgraph : List (String × List String)) :
    Except PyErr (List String) :=
  kahnSort depgraph []

/-- `c` is a dependency cycle of the adjacency table `g`: a nonempty list of
job ids in which every entry depends on the next (cyclically). -/
def IsCycle (g : List (String × List String)) (c : List String) : Prop :=
  c ≠ [] ∧ ∀ i : Fin c.length, ∃ ds : List String,
    (c.get i, ds) ∈ g ∧ c.get ⟨(i.val + 1) % c.length, Nat.mod_lt _ i.pos⟩ ∈ ds

/-! ## Progress reports (`jobcontrol.utils.ProgressReport`) -/

mutual
/-- A `ProgressReport` tree node: `name`, the raw `_current`/`_total`
(`none` when never supplied), `status_line`, and ordered children. -/
inductive PRep where
  | mk (name : Option String) (rawCurrent rawTotal : Option Int)
       (status_line : Option String) (children : PRepList)

/-- An ordered list of `ProgressReport` children. -/
inductive PRepList where
  | nil
  | cons (p : PRep) (tl : PRepList)
end

/-- The node's `name`. -/
def PRep.name : PRep → Option String
  | .mk n _ _ _ _ => n

/-- The node's raw `_current` attribute. -/
def PRep.rawCurrent : PRep → Option Int
  | .mk _ c _ _ _ => c

/-- The node's raw `_total` attribute. -/
def PRep.rawTotal : PRep → Option Int
  | .mk _ _ t _ _ => t

/-- The node's children. -/
def PRep.children : PRep → PRepList
  | .mk _ _ _ _ ch => ch

mutual
/-- The `current` property: the explicit `_current` when set, otherwise the
sum of the children's (possibly themselves derived) `current` values. -/
def PRep.current : PRep → Int
  | .mk _ rawCur _ _ children =>
    match rawCur with
    | Option.some c => c
    | Option.none => PRepList.sumCurrent children

/-- `sum(x.current for x in self.children)`. -/
def PRepList.sumCurrent : PRepList → Int
  | .nil => 0
  | .cons p tl => PRep.current p + PRepList.sumCurrent tl
end

mutual
/-- The `total` property: the explicit `_total` when set, otherwise the sum
of the children's `total` values. -/
def PRep.total : PRep → Int
  | .mk _ _ rawTot _ children =>
    match rawTot with
    | Option.some t => t
    | Option.none => PRepList.sumTotal children

/-- `sum(x.total for x in self.children)`. -/
def PRepList.sumTotal : PRepList → Int
  | .nil => 0
  | .cons p tl => PRep.total p + PRepList.sumTotal tl
end

/-- The names of the nodes of a child list, in order. -/
def PRepList.names : PRepList → List (Option String)
  | .nil => []
  | .cons p tl => PRep.name p :: PRepList.names tl

/-- One row of the flat progress table handed to `from_table`:
`(name, current, total, status_line)` where `name` is a segment path or
`None`. -/
structure PRow where
  name : Option (List String)
  current : Option Int
  total : Option Int
  status_line : Option String

/-- Whether a row addresses the root (`if not name:` — `None` or the empty
path). -/
def PRow.isRoot (r : PRow) : Bool :=
  match r.name with
  | Option.none => true
  | Option.some [] => true
  | Option.some (_ :: _) => false

/-- The `root` variable after the loop of `from_table`: the row assignment
runs once per root row, so the last root row wins. -/
def lastRootRow (table : List PRow) : Option PRow :=
  (table.filter PRow.isRoot).getLast?

/-- The accumulator pass collecting the `prefixes` list of `from_table`. -/
def tableHeadsAux (acc : List String) : List PRow → List String
  | [] => acc
  | r :: t =>
    match r.name with
    | Option.some (seg :: _) =>
      tableHeadsAux (if seg ∈ acc then acc else acc ++ [seg]) t
    | _ => tableHeadsAux acc t

/-- The `prefixes` list of `from_table`: first path segments of the non-root
rows, in first-appearance order (`if prefix not in prefixes:
prefixes.append(prefix)`). -/
def tableHeads (table : List PRow) : List String :=
  tableHeadsAux [] table

/-- `sub_tables[seg]` of `from_table`: the rows whose path starts with
`seg`, with that first segment stripped, in table order. -/
def subTable (table : List PRow) (seg : String) : List PRow :=
  table.filterMap (fun r =>
    match r.name with
    | Option.some (s :: rest) =>
      if s = seg then Option.some { r with name := Option.some rest }
      else Option.none
    | _ => Option.none)

/-- The path length of one row (`0` for a root row). -/
def rowWeight (r : PRow) : Nat :=
  match r.name with
  | Option.some l => l.length
  | Option.none => 0

/-- The sum of the path lengths of a table, the termination measure of
`from_table`'s recursion. -/
def tableWeight (table : List PRow) : Nat :=
  (table.map rowWeight).sum


/-- Conversion from a Lean list of nodes to a child list. -/
def PRepList.ofList : List PRep → PRepList
  | [] => .nil
  | p :: ps => .cons p (PRepList.ofList ps)

theorem tableWeight_nil : tableWeight [] = 0 := rfl

theorem tableWeight_cons (r : PRow) (t : List PRow) :
    tableWeight (r :: t) = rowWeight r + tableWeight t := by
  simp [tableWeight]

theorem subTable_cons_root (r : PRow) (t : List PRow) (seg : String)
    (h : r.name = Option.none ∨ r.name = Option.some []) :
    subTable (r :: t) seg = subTable t seg := by
  rcases h with h | h <;> simp [subTable, h]

theorem subTable_cons_hit (r : PRow) (t : List PRow) (seg : String)
    (rest : List String) (h : r.name = Option.some (seg :: rest)) :
    subTable (r :: t) seg =
      { r with name := Option.some rest } :: subTable t seg := by
  simp [subTable, h]

theorem subTable_cons_miss (r : PRow) (t : List PRow) (seg s : String)
    (rest : List String) (h : r.name = Option.some (s :: rest))
    (hs : s ≠ seg) :
    subTable (r :: t) seg = subTable t seg := by
  simp [subTable, h, hs]

/-- Stripping a prefix never increases a table's weight. -/
theorem subTable_weight_le (table : List PRow) (seg : String) :
    tableWeight (subTable table seg) ≤ tableWeight table := by
  induction table with
  | nil => simp [subTable, tableWeight]
  | cons r t ih =>
    rw [tableWeight_cons]
    match hname : r.name with
    | Option.none =>
      rw [subTable_cons_root r t seg (Or.inl hname)]
      omega
    | Option.some [] =>
      rw [subTable_cons_root r t seg (Or.inr hname)]
      omega
    | Option.some (s :: rest) =>
      by_cases hs : s = seg
      · subst hs
        rw [subTable_cons_hit r t s rest hname, tableWeight_cons]
        have hw : rowWeight { r with name := Option.some rest } = rest.length := by
          simp [rowWeight]
        have hw' : rowWeight r = rest.length + 1 := by
          simp [rowWeight, hname]
        omega
      · rw [subTable_cons_miss r t seg s rest hname hs]
        omega

/-- If some row's path starts with `seg`, stripping that prefix strictly
decreases the table's weight. -/
theorem subTable_weight_lt (table : List PRow) (seg : String)
    (h : ∃ r ∈ table, ∃ rest, r.name = Option.some (seg :: rest)) :
    tableWeight (subTable table seg) < tableWeight table := by
  induction table with
  | nil => simp at h
  | cons r t ih =>
    rw [tableWeight_cons]
    match hname : r.name with
    | Option.none =>
      rw [subTable_cons_root r t seg (Or.inl hname)]
      obtain ⟨r', hr', rest, hn⟩ := h
      rcases List.mem_cons.mp hr' with hEq | hMem
      · subst hEq; rw [hname] at hn; exact absurd hn (by simp)
      · have := ih ⟨r', hMem, rest, hn⟩; omega
    | Option.some [] =>
      rw [subTable_cons_root r t seg (Or.inr hname)]
      obtain ⟨r', hr', rest, hn⟩ := h
      rcases List.mem_cons.mp hr' with hEq | hMem
      · subst hEq; rw [hname] at hn; simp at hn
      · have := ih ⟨r', hMem, rest, hn⟩; omega
    | Option.some (s :: rest) =>
      by_cases hs : s = seg
      · subst hs
        rw [subTable_cons_hit r t s rest hname, tableWeight_cons]
        have hle := subTable_weight_le t s
        have hw : rowWeight { r with name := Option.some rest } = rest.length := by
          simp [rowWeight]
        have hw' : rowWeight r = rest.length + 1 := by
          simp [rowWeight, hname]
        omega
      · rw [subTable_cons_miss r t seg s rest hname hs]
        obtain ⟨r', hr', rest', hn⟩ := h
        rcases List.mem_cons.mp hr' with hEq | hMem
        · subst hEq; rw [hname] at hn
          exact absurd (by injection hn with h1; injection h1) hs
        · have := ih ⟨r', hMem, rest', hn⟩; omega

/-- Every head collected by `tableHeadsAux` was in the accumulator already
or heads some row of the table. -/
theorem mem_tableHeadsAux (table : List PRow) :
    ∀ acc seg, seg ∈ tableHeadsAux acc table →
      seg ∈ acc ∨ ∃ r ∈ table, ∃ rest, r.name = Option.some (seg :: rest) := by
  induction table with
  | nil => intro acc seg h; exact Or.inl (by simpa [tableHeadsAux] using h)
  | cons r t ih =>
    intro acc seg h
    match hname : r.name with
    | Option.none =>
      rw [tableHeadsAux, hname] at h
      rcases ih _ _ h with hacc | ⟨r', hr', rest, hn⟩
      · exact Or.inl hacc
      · exact Or.inr ⟨r', List.mem_cons_of_mem _ hr', rest, hn⟩
    | Option.some [] =>
      rw [tableHeadsAux, hname] at h
      rcases ih _ _ h with hacc | ⟨r', hr', rest, hn⟩
      · exact Or.inl hacc
      · exact Or.inr ⟨r', List.mem_cons_of_mem _ hr', rest, hn⟩
    | Option.some (s :: l) =>
      rw [tableHeadsAux, hname] at h
      rcases ih _ _ h with hacc | ⟨r', hr', rest, hn⟩
      · by_cases hs : s ∈ acc
        · rw [if_pos hs] at hacc
          exact Or.inl hacc
        · rw [if_neg hs] at hacc
          rcases List.mem_append.mp hacc with h1 | h2
          · exact Or.inl h1
          · have hseg : seg = s := by simpa using h2
            exact Or.inr ⟨r, List.mem_cons_self _ _, l, by rw [hname, hseg]⟩
      · exact Or.inr ⟨r', List.mem_cons_of_mem _ hr', rest, hn⟩

/-- A member of `tableHeads table` heads some row of the table. -/
theorem mem_tableHeads (table : List PRow) (seg : String)
    (h : seg ∈ tableHeads table) :
    ∃ r ∈ table, ∃ rest, r.name = Option.some (seg :: rest) := by
  rcases mem_tableHeadsAux table [] seg h with habs | hex
  · simp at habs
  · exact hex

/-- `ProgressReport.from_table`: group the non-root rows by their first path
segment (in first-appearance order), take the last root row (if any) for the
node's own values, strip the segment and recurse to build the children. -/
def from_table (table : List PRow) (base_name : Option String) : PRep :=
  let children := PRepList.ofList ((tableHeads table).attach.map
    (fun x => from_table (subTable table x.1) (Option.some x.1)))
  match lastRootRow table with
  | Option.none =>
    PRep.mk base_name Option.none Option.none Option.none children
  | Option.some r =>
    PRep.mk base_name r.current r.total r.status_line children
termination_by tableWeight table
decreasing_by
  exact subTable_weight_lt table x.1 (mem_tableHeads table x.1 x.2)

/-! ## Termination of the dependency-graph exploration -/

/-- A finite id universe is closed under the configuration when it contains
every configured job id and every listed dependency id. -/
def cfgClosed (cfg : JCConfig) (U : Finset String) : Prop :=
  (∀ j ∈ cfg, j.id ∈ U) ∧ (∀ j ∈ cfg, ∀ d ∈ j.cfg.dependencies, d ∈ U)

theorem get_job_deps_subset (cfg : JCConfig) (U : Finset String)
    (hcl : cfgClosed cfg U) (jid : String) :
    ∀ d ∈ get_job_deps cfg jid, d ∈ U := by
  intro d hd
  unfold get_job_deps at hd
  match hfind : get_job_config cfg jid with
  | Option.none => rw [hfind] at hd; simp at hd
  | Option.some j =>
    rw [hfind] at hd
    exact hcl.2 j (List.mem_of_find?_eq_some hfind) d hd

theorem get_job_revdeps_subset (cfg : JCConfig) (U : Finset String)
    (hcl : cfgClosed cfg U) (jid : String) :
    ∀ r ∈ get_job_revdeps cfg jid, r ∈ U := by
  intro r hr
  unfold get_job_revdeps at hr
  obtain ⟨j, hj, hid⟩ := List.mem_map.mp hr
  exact hid ▸ hcl.1 j (List.mem_of_mem_filter hj)

theorem mem_foldr_insert_of_mem_acc (l : List String) (acc : Finset String)
    (d : String) (h : d ∈ acc) : d ∈ l.foldr insert acc := by
  induction l with
  | nil => exact h
  | cons x xs ih => exact Finset.mem_insert_of_mem ih

theorem mem_foldr_insert_of_mem_list (l : List String) (acc : Finset String)
    (d : String) (h : d ∈ l) : d ∈ l.foldr insert acc := by
  induction l with
  | nil => simp at h
  | cons x xs ih =>
    rcases List.mem_cons.mp h with hEq | hMem
    · exact hEq ▸ Finset.mem_insert_self _ _
    · exact Finset.mem_insert_of_mem (ih hMem)

theorem root_mem_jobUniverse (cfg : JCConfig) (root : String) :
    root ∈ jobUniverse cfg root :=
  Finset.mem_insert_self _ _

theorem jobUniverse_closed (cfg : JCConfig) (root : String) :
    cfgClosed cfg (jobUniverse cfg root) := by
  have hcore : ∀ j ∈ cfg,
      j.id ∈ cfg.foldr (fun j acc =>
        insert j.id (j.cfg.dependencies.foldr insert acc)) (∅ : Finset String) ∧
      ∀ d ∈ j.cfg.dependencies,
        d ∈ cfg.foldr (fun j acc =>
          insert j.id (j.cfg.dependencies.foldr insert acc)) (∅ : Finset String) := by
    induction cfg with
    | nil => intro j hj; simp at hj
    | cons jb rest ih =>
      intro j hj
      rcases List.mem_cons.mp hj with hEq | hMem
      · subst hEq
        refine ⟨Finset.mem_insert_self _ _, fun d hd => ?_⟩
        exact Finset.mem_insert_of_mem (mem_foldr_insert_of_mem_list _ _ _ hd)
      · obtain ⟨h1, h2⟩ := ih j hMem
        refine ⟨Finset.mem_insert_of_mem (mem_foldr_insert_of_mem_acc _ _ _ h1),
          fun d hd => Finset.mem_insert_of_mem
            (mem_foldr_insert_of_mem_acc _ _ _ (h2 d hd))⟩
  exact ⟨fun j hj => Finset.mem_insert_of_mem (hcore j hj).1,
    fun j hj d hd => Finset.mem_insert_of_mem ((hcore j hj).2 d hd)⟩

/-- With fuel exceeding the number of still-unprocessed ids of a closed
universe, the exploration succeeds, and the processed set only grows and
stays inside the universe.  This is the termination argument: each
non-trivial call marks one more id processed *before* recursing. -/
theorem exploreDeps_total (cfg : JCConfig) (complete : Bool) (U : Finset String)
    (hcl : cfgClosed cfg U) :
    ∀ fuel jid st, jid ∈ U → st.processed ⊆ U →
      (U \ st.processed).card < fuel →
      ∃ st', exploreDeps fuel cfg complete jid st = Option.some st' ∧
        st.processed ⊆ st'.processed ∧ st'.processed ⊆ U := by
  intro fuel
  induction fuel with
  | zero => intro jid st _ _ hcard; omega
  | succ f ih =>
    intro jid st hj hsub hcard
    by_cases hproc : jid ∈ st.processed
    · exact ⟨st, by rw [exploreDeps]; simp [hproc], Finset.Subset.refl _, hsub⟩
    · have hins : insert jid st.processed ⊆ U := by
        intro x hx
        rcases Finset.mem_insert.mp hx with hEq | hMem
        · exact hEq ▸ hj
        · exact hsub hMem
      have hcard2 : ∀ p : Finset String, insert jid st.processed ⊆ p → p ⊆ U →
          (U \ p).card < f := by
        intro p hp hpU
        have hstep : (U \ insert jid st.processed).card < (U \ st.processed).card := by
          apply Finset.card_lt_card
          constructor
          · exact Finset.sdiff_subset_sdiff (Finset.Subset.refl _)
              (Finset.subset_insert _ _)
          · intro habs
            have hjmem : jid ∈ U \ st.processed :=
              Finset.mem_sdiff.mpr ⟨hj, hproc⟩
            have := habs hjmem
            simp at this
        have hmono : (U \ p).card ≤ (U \ insert jid st.processed).card :=
          Finset.card_le_card (Finset.sdiff_subset_sdiff (Finset.Subset.refl _) hp)
        omega
      have hlist : ∀ ds : List String, (∀ d ∈ ds, d ∈ U) →
          ∀ s : DepgraphSt, insert jid st.processed ⊆ s.processed →
            s.processed ⊆ U →
            ∃ s', exploreDepsList f cfg complete ds s = Option.some s' ∧
              s.processed ⊆ s'.processed ∧ s'.processed ⊆ U := by
        intro ds
        induction ds with
        | nil =>
          intro _ s _ hsU
          exact ⟨s, by rw [exploreDepsList], Finset.Subset.refl _, hsU⟩
        | cons d dtl ihd =>
          intro hdsU s hins' hsU
          obtain ⟨s1, hs1, hmono1, hsU1⟩ :=
            ih d s (hdsU d (List.mem_cons_self _ _)) hsU
              (hcard2 s.processed (by exact hins'.trans (Finset.Subset.refl _)) hsU)
          obtain ⟨s2, hs2, hmono2, hsU2⟩ :=
            ihd (fun x hx => hdsU x (List.mem_cons_of_mem _ hx)) s1
              (hins'.trans hmono1) hsU1
          exact ⟨s2, by rw [exploreDepsList, hs1]; exact hs2,
            hmono1.trans hmono2, hsU2⟩
      have hrev : ∀ rs : List String, (∀ r ∈ rs, r ∈ U) →
          ∀ s : DepgraphSt, insert jid st.processed ⊆ s.processed →
            s.processed ⊆ U →
            ∃ s', exploreRevdeps f cfg complete jid rs s = Option.some s' ∧
              s.processed ⊆ s'.processed ∧ s'.processed ⊆ U := by
        intro rs
        induction rs with
        | nil =>
          intro _ s _ hsU
          exact ⟨s, by rw [exploreRevdeps], Finset.Subset.refl _, hsU⟩
        | cons r rtl ihr =>
          intro hrsU s hins' hsU
          obtain ⟨s1, hs1, hmono1, hsU1⟩ :=
            ih r ⟨s.processed, dgAddRevdep s.depgraph r jid⟩
              (hrsU r (List.mem_cons_self _ _)) hsU
              (hcard2 s.processed hins' hsU)
          obtain ⟨s2, hs2, hmono2, hsU2⟩ :=
            ihr (fun x hx => hrsU x (List.mem_cons_of_mem _ hx)) s1
              (hins'.trans hmono1) hsU1
          exact ⟨s2, by rw [exploreRevdeps, hs1]; exact hs2,
            hmono1.trans hmono2, hsU2⟩
      obtain ⟨s3, hs3, hmono3, hsU3⟩ :=
        hlist (get_job_deps cfg jid) (get_job_deps_subset cfg U hcl jid)
          ⟨insert jid st.processed, dgSet st.depgraph jid (get_job_deps cfg jid)⟩
          (Finset.Subset.refl _) hins
      by_cases hcomp : complete = true
      · subst hcomp
        obtain ⟨s4, hs4, hmono4, hsU4⟩ :=
          hrev (get_job_revdeps cfg jid) (get_job_revdeps_subset cfg U hcl jid)
            s3 ((Finset.Subset.refl _).trans hmono3) hsU3
        refine ⟨s4, ?_, ?_, hsU4⟩
        · rw [exploreDeps]
          simp only [hproc, if_false, if_true]
          rw [hs3]
          exact hs4
        · exact (Finset.subset_insert _ _).trans (hmono3.trans hmono4)
      · refine ⟨s3, ?_, (Finset.subset_insert _ _).trans hmono3, hsU3⟩
        rw [exploreDeps]
        simp only [hproc, if_false]
        rw [hs3]
        simp [hcomp]

/-- `_create_job_depgraph` terminates on every finite configuration,
cyclic ones included. -/
theorem create_job_depgraph_total (cfg : JCConfig) (job_id : String)
    (complete : Bool) : (create_job_depgraph cfg job_id complete).isSome := by
  obtain ⟨st', hst', -, -⟩ :=
    exploreDeps_total cfg complete (jobUniverse cfg job_id)
      (jobUniverse_closed cfg job_id) (depgraphFuel cfg job_id) job_id ⟨∅, []⟩
      (root_mem_jobUniverse cfg job_id) (Finset.empty_subset _)
      (by simp [depgraphFuel])
  simp [create_job_depgraph, hst']

/-! ## Cycle detection of the resolver -/

/-- In a table with no duplicate keys, the entry of a key is unique. -/
theorem nodup_keys_entry_unique {g : List (String × List String)}
    (hnd : (g.map Prod.fst).Nodup) {k : String} {a b : List String}
    (ha : (k, a) ∈ g) (hb : (k, b) ∈ g) : a = b := by
  induction g with
  | nil => simp at ha
  | cons e rest ih =>
    simp only [List.map_cons, List.nodup_cons] at hnd
    rcases List.mem_cons.mp ha with haEq | haMem
    · rcases List.mem_cons.mp hb with hbEq | hbMem
      · rw [← haEq] at hbEq; exact (Prod.mk.injEq _ _ _ _ ▸ hbEq.symm).2
      · exfalso
        apply hnd.1
        have : e.1 = k := by rw [← haEq]
        rw [this]
        exact List.mem_map.mpr ⟨(k, b), hbMem, rfl⟩
    · rcases List.mem_cons.mp hb with hbEq | hbMem
      · exfalso
        apply hnd.1
        have : e.1 = k := by rw [← hbEq]
        rw [this]
        exact List.mem_map.mpr ⟨(k, a), haMem, rfl⟩
      · exact ih hnd.2 haMem hbMem

/-- A cycle is never emitted: as long as every node of the cycle is still
pending, no node of the cycle is ready, so the ready-elimination loop ends
with `CycleDetected`. -/
theorem kahnSort_cycle (c : List String) :
    ∀ n (remaining : List (String × List String)) (acc : List String),
      remaining.length = n → (remaining.map Prod.fst).Nodup →
      IsCycle remaining c →
      kahnSort remaining acc = Except.error PyErr.cycleDetected := by
  intro n
  induction n using Nat.strong_induction_on with
  | _ n ihn =>
    intro remaining acc hlen hnd hcyc
    obtain ⟨hcne, hadj⟩ := hcyc
    have hlenpos : 0 < c.length := List.length_pos.mpr hcne
    have hrne : remaining ≠ [] := by
      intro habs
      obtain ⟨ds, hmem, -⟩ := hadj ⟨0, hlenpos⟩
      rw [habs] at hmem
      simp at hmem
    rw [kahnSort]
    simp only [dif_neg hrne]
    match hfind : remaining.find? (kahnReady remaining) with
    | Option.none => rfl
    | Option.some e =>
      have hemem : e ∈ remaining := List.mem_of_find?_eq_some hfind
      have hready : kahnReady remaining e = true := List.find?_some hfind
      -- the found node cannot lie on the cycle
      have hnotc : ∀ i : Fin c.length, c.get i ≠ e.1 := by
        intro i habs
        obtain ⟨ds, hdsmem, hnext⟩ := hadj i
        have heds : e.2 = ds := by
          have he' : (e.1, e.2) ∈ remaining := by simpa using hemem
          rw [← habs] at he'
          exact nodup_keys_entry_unique hnd he' hdsmem
        have hpending : remaining.any
            (fun e' => e'.1 = c.get ⟨(i.val + 1) % c.length,
              Nat.mod_lt _ i.pos⟩) = true := by
          obtain ⟨ds', hds'mem, -⟩ := hadj ⟨(i.val + 1) % c.length, Nat.mod_lt _ i.pos⟩
          exact List.any_eq_true.mpr ⟨_, hds'mem, by simp⟩
        have := (List.all_eq_true.mp hready) _ (heds ▸ hnext)
        simp only [decide_eq_true_eq] at this
        exact this hpending
      -- the cycle survives the elimination step
      have hcyc' : IsCycle (remaining.erase e) c := by
        refine ⟨hcne, fun i => ?_⟩
        obtain ⟨ds, hdsmem, hnext⟩ := hadj i
        refine ⟨ds, ?_, hnext⟩
        have hne : (c.get i, ds) ≠ e := by
          intro habs
          exact hnotc i (by rw [← habs])
        exact (List.mem_erase_of_ne hne).mpr hdsmem
      have hnd' : ((remaining.erase e).map Prod.fst).Nodup :=
        ((remaining.erase_sublist e).map Prod.fst).nodup hnd
      have hlt : (remaining.erase e).length < n := by
        rw [List.length_erase_of_mem hemem, hlen]
        have : 0 < n := by
          rw [← hlen]
          exact List.length_pos.mpr hrne
        omega
      exact ihn _ hlt _ (e.1 :: acc) rfl hnd' hcyc'

/-! ## Storage records and the build-execution engine (`core.py`) -/

/-- Structured traceback data (`TracebackInfo.from_current_exc()`),
modelled as a tag of the exception it was captured for. -/
inductive Traceback where
  | ofExc (e : PyErr)
deriving DecidableEq, Repr

/-- The keyword arguments that `core.py` passes to `storage.finish_build`.
A field holding `Option.none` means the keyword was not passed at the call
site; callee defaults are applied by the storage implementation.  (No call
site in `core.py` passes `exc_info`.) -/
structure FinishArgs where
  success : Option Bool := Option.none
  skipped : Option Bool := Option.none
  retval : Option PyVal := Option.none
  exception : Option (Option PyErr) := Option.none
  exception_tb : Option Traceback := Option.none

/-- The outcome of invoking a job's callable. -/
inductive CallOutcome where
  | ret (v : PyVal)
  | exc (e : PyErr)

/-- An environment resolving `"<module>:<name>"` strings to callables
(`jobcontrol.utils.import_object` is the lookup; the import machinery
itself is external to the engine). -/
abbrev FuncEnv := String → Option (PyVal → PyVal → CallOutcome)

/-- Number of colon characters in a function name
(`name.count(':')` of `import_object`). -/
def countColons (s : String) : Nat :=
  s.toList.count ':'

/-- `JobControl._get_runner_function` composed with `import_object`:
a missing (`None`) name is a TypeError, an empty name a ValueError, a name
without exactly one colon a ValueError, and an unresolvable name an import
error. -/
def get_runner_function (fenv : FuncEnv) (name : Option String) :
    Except PyErr (PyVal → PyVal → CallOutcome) :=
  match name with
  | Option.none => Except.error (PyErr.typeError "Function name must be a string")
  | Option.some n =>
    if n = "" then Except.error (PyErr.valueError "Cannot get function for empty name")
    else if countColons n ≠ 1 then
      Except.error (PyErr.valueError "Invalid object name")
    else
      match fenv n with
      | Option.some f => Except.ok f
      | Option.none => Except.error (PyErr.importError n)

/-- The storage interface as consumed by `core.py`, abstracting over the
backend state `St` and the build-record representation `Rec`, so that the
same engine embedding can be instantiated with the spec-conforming storage
and with the in-memory reference backend. -/
structure StorageOps (St : Type) (Rec : Type) where
  get_build : St → Nat → Except PyErr Rec
  start_build : St → Nat → Except PyErr St
  finish_build : St → Nat → FinishArgs → Except PyErr St
  rec_job_id : Rec → String
  rec_config : Rec → Except PyErr BuildCfg
  rec_retval : Rec → PyVal
  get_latest_successful : St → String → Option Rec

/-- `BuildInfo.get_dependency_build`: a job id outside the build's declared
dependencies is a ValueError; a pinned job id resolves to the pinned build;
otherwise the job's latest successful build (or Python `None`). -/
def get_dependency_build {St Rec : Type} (ops : StorageOps St Rec) (st : St)
    (cfg : BuildCfg) (job_id : String) : Except PyErr (Option Rec) :=
  if job_id ∈ cfg.dependencies then
    match cfg.pinned_builds.find? (fun p => p.1 = job_id) with
    | Option.some p => (ops.get_build st p.2).map Option.some
    | Option.none => Except.ok (ops.get_latest_successful st job_id)
  else
    Except.error (PyErr.valueError
      ("Job " ++ job_id ++ " is not a dependency of this build"))

/-- The `Retval` branch of `_prepare_args`:
`dep_build = current_build.get_dependency_build(args.job_id)` followed by
`dep_build['retval']` — subscripting Python `None` (no successful build of
an unpinned dependency) is a TypeError. -/
def resolve_retval {St Rec : Type} (ops : StorageOps St Rec) (st : St)
    (cfg : BuildCfg) (job_id : String) : Except PyErr PyVal :=
  match get_dependency_build ops st cfg job_id with
  | Except.error e => Except.error e
  | Except.ok Option.none =>
    Except.error (PyErr.typeError "NoneType object is not subscriptable")
  | Except.ok (Option.some r) => Except.ok (ops.rec_retval r)

mutual
/-- `JobControl._prepare_args`: recursively rebuild lists, tuples and dicts,
replace every `Retval` placeholder through the execution context's current
build (whose configuration `cfg` is), and pass other values through. -/
def prepare_args {St Rec : Type} (ops : StorageOps St Rec) (st : St)
    (cfg : BuildCfg) : PyVal → Except PyErr PyVal
  | PyVal.list xs => (prepare_args_list ops st cfg xs).map PyVal.list
  | PyVal.tuple xs => (prepare_args_list ops st cfg xs).map PyVal.tuple
  | PyVal.dict kvs => (prepare_args_kvs ops st cfg kvs).map PyVal.dict
  | PyVal.retval j => resolve_retval ops st cfg j
  | PyVal.none => Except.ok PyVal.none
  | PyVal.int n => Except.ok (PyVal.int n)
  | PyVal.str s => Except.ok (PyVal.str s)
  | PyVal.bool b => Except.ok (PyVal.bool b)

/-- Elementwise `_prepare_args` over list/tuple members, first error wins. -/
def prepare_args_list {St Rec : Type} (ops : StorageOps St Rec) (st : St)
    (cfg : BuildCfg) : PyList → Except PyErr PyList
  | PyList.nil => Except.ok PyList.nil
  | PyList.cons v tl =>
    match prepare_args ops st cfg v with
    | Except.error e => Except.error e
    | Except.ok w => (prepare_args_list ops st cfg tl).map (PyList.cons w)

/-- Valuewise `_prepare_args` over dict entries. -/
def prepare_args_kvs {St Rec : Type} (ops : StorageOps St Rec) (st : St)
    (cfg : BuildCfg) : PyKvs → Except PyErr PyKvs
  | PyKvs.nil => Except.ok PyKvs.nil
  | PyKvs.cons k v tl =>
    match prepare_args ops st cfg v with
    | Except.error e => Except.error e
    | Except.ok w => (prepare_args_kvs ops st cfg tl).map (PyKvs.cons k w)
end

/-- The result of `run_build`: the exception that propagated to the caller
(if any), the final storage state, and the final execution-context stack. -/
structure RunResult (St : Type) where
  raised : Option PyErr
  state : St
  stack : List (String × Nat)

/-- The `try` block of `_run_build`: read the build's config
(`build.config[...]`), resolve the callable, prepare `args` and `kwargs`
(each step short-circuiting on its exception), and only then invoke the
callable. -/
def build_phase {St Rec : Type} (ops : StorageOps St Rec) (fenv : FuncEnv)
    (st1 : St) (brec : Rec) : Except PyErr PyVal :=
  match ops.rec_config brec with
  | Except.error e => Except.error e
  | Except.ok cfg =>
    match get_runner_function fenv cfg.function with
    | Except.error e => Except.error e
    | Except.ok f =>
      match prepare_args ops st1 cfg (PyVal.tuple cfg.args) with
      | Except.error e => Except.error e
      | Except.ok args =>
        match prepare_args ops st1 cfg (PyVal.dict cfg.kwargs) with
        | Except.error e => Except.error e
        | Except.ok kwargs =>
          match f args kwargs with
          | CallOutcome.ret v => Except.ok v
          | CallOutcome.exc e => Except.error e

/-- `JobControl.run_build` / `_run_build`, generic in the storage backend:
refresh the build (NotFound propagates), mark it started, push a
`JobExecutionContext`, run the `try` block (`build_phase`), dispatch on
the outcome — `SkipBuild`, other exception, or normal return with a
failure-recording retry when persisting the success itself raises — and
pop the context unconditionally (`finally`). -/
def run_build {St Rec : Type} (ops : StorageOps St Rec) (fenv : FuncEnv)
    (st : St) (stack : List (String × Nat)) (build_id : Nat) : RunResult St :=
  match ops.get_build st build_id with
  | Except.error e => ⟨Option.some e, st, stack⟩
  | Except.ok brec =>
    match ops.start_build st build_id with
    | Except.error e => ⟨Option.some e, st, stack⟩
    | Except.ok st1 =>
      let ctx : String × Nat := (ops.rec_job_id brec, build_id)
      let stack1 := ctx :: stack
      match build_phase ops fenv st1 brec with
      | Except.error PyErr.skipBuild =>
        match ops.finish_build st1 build_id { skipped := Option.some true } with
        | Except.ok st2 => ⟨Option.none, st2, stack1.tail⟩
        | Except.error e2 => ⟨Option.some e2, st1, stack1.tail⟩
      | Except.error e =>
        match ops.finish_build st1 build_id
            { success := Option.some false,
              exception := Option.some (Option.some e),
              exception_tb := Option.some (Traceback.ofExc e) } with
        | Except.ok st2 => ⟨Option.none, st2, stack1.tail⟩
        | Except.error e2 => ⟨Option.some e2, st1, stack1.tail⟩
      | Except.ok v =>
        match ops.finish_build st1 build_id
            { success := Option.some true, skipped := Option.some false,
              retval := Option.some v,
              exception := Option.some Option.none } with
        | Except.ok st2 => ⟨Option.none, st2, stack1.tail⟩
        | Except.error e1 =>
          match ops.finish_build st1 build_id
              { success := Option.some false,
                exception := Option.some (Option.some e1),
                exception_tb := Option.some (Traceback.ofExc e1) } with
          | Except.ok st2 => ⟨Option.none, st2, stack1.tail⟩
          | Except.error e2 => ⟨Option.some e2, st1, stack1.tail⟩

/-! ## A spec-conforming storage backend

`jobcontrol/interfaces.py` (`StorageBase`) is not among the provided
sources; the backend below is modelled from §4.5 of the specification and
from the keyword signatures `core.py` relies on. -/

/-- A stored build record with the fields documented for `BuildInfo.info`
(`id`, `job_id`, timestamps, state booleans, frozen `config`, `retval`,
`exception`, `exception_tb`). -/
structure SpecBuild where
  id : Nat
  job_id : String
  start_time : Option Nat := Option.none
  end_time : Option Nat := Option.none
  started : Bool := false
  finished : Bool := false
  success : Bool := false
  skipped : Bool := false
  config : BuildCfg
  retval : PyVal := PyVal.none
  exception : Option PyErr := Option.none
  exception_tb : Option Traceback := Option.none

/-- Spec-storage state: the build records, the id sequence, and a logical
clock supplying `datetime.now()` timestamps. -/
structure SpecState where
  builds : List SpecBuild := []
  seq : Nat := 0
  now : Nat := 0

/-- Latest build of a list: the entry with the greatest id (`order='desc',
limit=1` over an id-ordered query). -/
def latestOf (bs : List SpecBuild) : Option SpecBuild :=
  bs.foldl (fun acc b =>
    match acc with
    | Option.none => Option.some b
    | Option.some a => if a.id < b.id then Option.some b else Option.some a)
    Option.none

/-- Modelled from the spec: `get_latest_successful_build` — the greatest-id
build of the job with `started`, `finished`, `success` and not `skipped`
(the filter used throughout `core.py` for "successful"). -/
def spec_get_latest_successful (st : SpecState) (job_id : String) :
    Option SpecBuild :=
  latestOf (st.builds.filter (fun b =>
    (b.job_id == job_id) && b.started && b.finished && b.success && !b.skipped))

/-- Modelled from the spec: fetch a build by id, `NotFound` when absent. -/
def spec_get_build (st : SpecState) (build_id : Nat) : Except PyErr SpecBuild :=
  match st.builds.find? (fun b => b.id == build_id) with
  | Option.none => Except.error (PyErr.notFound "No such build")
  | Option.some b => Except.ok b

/-- Apply an update to the record with the given id. -/
def specUpdate (st : SpecState) (build_id : Nat) (f : SpecBuild → SpecBuild) :
    SpecState :=
  { st with builds := st.builds.map (fun b => if b.id == build_id then f b else b) }

/-- Modelled from the spec: mark a build started, persisting the start
time. -/
def spec_start_build (st : SpecState) (build_id : Nat) : Except PyErr SpecState :=
  match st.builds.find? (fun b => b.id == build_id) with
  | Option.none => Except.error (PyErr.notFound "No such build")
  | Option.some _ => Except.ok
    { specUpdate st build_id (fun b =>
        { b with started := true, start_time := Option.some st.now })
      with now := st.now + 1 }

/-- The record update performed by a successful `finish_build` call. -/
def spec_finish_apply (st : SpecState) (build_id : Nat) (kw : FinishArgs) :
    SpecState :=
  { specUpdate st build_id (fun b =>
      { b with
        finished := true
        end_time := Option.some st.now
        success := kw.success.getD true
        skipped := kw.skipped.getD false
        retval := kw.retval.getD PyVal.none
        exception := kw.exception.getD Option.none
        exception_tb := kw.exception_tb })
    with now := st.now + 1 }

/-- Modelled from the spec: mark a build finished with the outcome fields.
Persistence can fail when the return value cannot be serialized, which the
`canStore` predicate decides; the check happens before any mutation, so a
failed call leaves the record untouched.  Defaults mirror the storage
signature (`success=True, skipped=False, retval=None, exception=None`). -/
def spec_finish_build (canStore : PyVal → Bool) (st : SpecState)
    (build_id : Nat) (kw : FinishArgs) : Except PyErr SpecState :=
  match st.builds.find? (fun b => b.id == build_id) with
  | Option.none => Except.error (PyErr.notFound "No such build")
  | Option.some _ =>
    match kw.retval with
    | Option.some rv =>
      if canStore rv then Except.ok (spec_finish_apply st build_id kw)
      else Except.error (PyErr.serializationError "retval is not serializable")
    | Option.none => Except.ok (spec_finish_apply st build_id kw)

/-- The spec-conforming backend packaged for the engine. -/
def specOps (canStore : PyVal → Bool) : StorageOps SpecState SpecBuild where
  get_build := spec_get_build
  start_build := spec_start_build
  finish_build := spec_finish_build canStore
  rec_job_id := SpecBuild.job_id
  rec_config := fun b => Except.ok b.config
  rec_retval := SpecBuild.retval
  get_latest_successful := spec_get_latest_successful

/-! ## The in-memory reference backend (`jobcontrol/ext/memory.py`) -/

/-- The build dict created by `MemoryStorage.create_build`.  Its keys are
exactly those of the source (`id`, `job_id`, timestamps, state booleans,
`job_config`, `build_config`, `retval`, `exception`, `exception_tb`,
`progress_info`); note there is *no* `config` key. -/
structure MemBuild where
  id : Nat
  job_id : String
  start_time : Option Nat := Option.none
  end_time : Option Nat := Option.none
  started : Bool := false
  finished : Bool := false
  success : Bool := false
  skipped : Bool := false
  job_config : BuildCfg
  build_config : PyVal := PyVal.none
  retval : PyVal := PyVal.none
  exception : Option PyErr := Option.none
  exception_tb : Option String := Option.none

/-- One stored log message of `MemoryStorage._log_messages`: the build id
the record was attributed to, its severity and creation time. -/
structure LogMsg where
  build_id : Nat
  levelno : Nat
  created : Nat
deriving DecidableEq, Repr

/-- `MemoryStorage` state: `_builds`, the id sequence `_builds_seq`, the
`_log_messages` mapping (a `defaultdict(list)` keyed by build id — the key
may be Python `None`), and a logical clock for `datetime.now()`. -/
structure MemState where
  builds : List MemBuild := []
  seq : Nat := 0
  log_messages : List (Option Nat × List LogMsg) := []
  now : Nat := 0

/-- `MemoryStorage.create_build(job_id, job_config, build_config)` called
with its actual positional signature: allocate the next id and store the
fresh record. -/
def mem_create_build (st : MemState) (job_id : String) (job_config : BuildCfg)
    (build_config : PyVal) : MemState × Nat :=
  let build_id := st.seq
  ({ st with
      builds := st.builds ++
        [{ id := build_id, job_id := job_id, job_config := job_config,
           build_config := build_config }]
      seq := st.seq + 1 }, build_id)

/-- `MemoryStorage.get_build`: `NotFound` when absent, otherwise the record
(the source returns `copy.deepcopy` of it; sharing is analysed separately
over the heap model below). -/
def mem_get_build (st : MemState) (build_id : Nat) : Except PyErr MemBuild :=
  match st.builds.find? (fun b => b.id == build_id) with
  | Option.none => Except.error (PyErr.notFound "No such build")
  | Option.some b => Except.ok b

/-- Apply an update to the record with the given id. -/
def memUpdate (st : MemState) (build_id : Nat) (f : MemBuild → MemBuild) :
    MemState :=
  { st with builds := st.builds.map (fun b => if b.id == build_id then f b else b) }

/-- `MemoryStorage.start_build`. -/
def mem_start_build (st : MemState) (build_id : Nat) : Except PyErr MemState :=
  match st.builds.find? (fun b => b.id == build_id) with
  | Option.none => Except.error (PyErr.notFound "No such build")
  | Option.some _ => Except.ok
    { memUpdate st build_id (fun b =>
        { b with started := true, start_time := Option.some st.now })
      with now := st.now + 1 }

/-- `MemoryStorage.finish_build(build_id, success=True, skipped=False,
retval=None, exception=None, exc_info=None)`.  The signature has *no*
`exception_tb` parameter, so a call passing that keyword fails to bind and
raises TypeError before the body runs.  No `core.py` call site passes
`exc_info`, so the stored `exception_tb` is always set to `None` here. -/
def mem_finish_build (st : MemState) (build_id : Nat) (kw : FinishArgs) :
    Except PyErr MemState :=
  if kw.exception_tb.isSome then
    Except.error (PyErr.typeError
      "finish_build got an unexpected keyword argument exception_tb")
  else
    match st.builds.find? (fun b => b.id == build_id) with
    | Option.none => Except.error (PyErr.notFound "No such build")
    | Option.some _ => Except.ok
      { memUpdate st build_id (fun b =>
          { b with
            finished := true
            end_time := Option.some st.now
            success := kw.success.getD true
            skipped := kw.skipped.getD false
            retval := kw.retval.getD PyVal.none
            exception := kw.exception.getD Option.none
            exception_tb := Option.none })
        with now := st.now + 1 }

/-- Modelled from the spec: `get_latest_successful_build` is inherited from
`StorageBase` (`jobcontrol/interfaces.py`, not among the sources) and
selects the greatest-id started, finished, successful, non-skipped build of
the job. -/
def mem_get_latest_successful (st : MemState) (job_id : String) :
    Option MemBuild :=
  (st.builds.filter (fun b =>
    (b.job_id == job_id) && b.started && b.finished && b.success && !b.skipped)
    ).foldl (fun acc b =>
      match acc with
      | Option.none => Option.some b
      | Option.some a => if a.id < b.id then Option.some b else Option.some a)
      Option.none

/-- The memory backend packaged for the engine.  `rec_config` embeds
`BuildInfo.config`, i.e. `self.info['config']`: the memory record has
`job_config` and `build_config` keys but no `config` key, so the dict
lookup raises KeyError. -/
def memOps : StorageOps MemState MemBuild where
  get_build := mem_get_build
  start_build := mem_start_build
  finish_build := mem_finish_build
  rec_job_id := MemBuild.job_id
  rec_config := fun _ => Except.error (PyErr.keyError "config")
  rec_retval := MemBuild.retval
  get_latest_successful := mem_get_latest_successful

/-! ## `JobControl.create_build` against the memory backend -/

/-- The dependency loop of `create_build`: for each dependency,
`JobInfo.get_deps` looks the dependency job up in the configuration
(`config.get_job(dep_id)` returning `None` makes the generator subscript
`None` — TypeError), and a dependency without a successful build raises
`MissingDependencies` (whose message interpolates the *parent* job id, as
in the source). -/
def create_build_deps_check (cfg : JCConfig) (st : MemState) (job_id : String) :
    List String → Except PyErr Unit
  | [] => Except.ok ()
  | d :: ds =>
    match get_job_config cfg d with
    | Option.none =>
      Except.error (PyErr.typeError "NoneType object is not subscriptable")
    | Option.some _ =>
      match mem_get_latest_successful st d with
      | Option.none =>
        Except.error (PyErr.missingDependencies
          ("Dependency job " ++ job_id ++ " has no successful builds"))
      | Option.some _ => create_build_deps_check cfg st job_id ds

/-- `JobControl.create_build(job_id)` running against `MemoryStorage`:
look the job up (`NotFound` when unknown), check every direct dependency
for a successful build, then call
`self.storage.create_build(job_id=job_id, config=build_config)`.
`MemoryStorage.create_build(self, job_id, job_config, build_config)` has no
`config` parameter, so that call fails to bind and raises TypeError — it
never reaches the method body, so no record is stored. -/
def create_build_mem (cfg : JCConfig) (st : MemState) (job_id : String) :
    Except PyErr (MemState × Nat) :=
  match get_job_config cfg job_id with
  | Option.none => Except.error (PyErr.notFound ("No such job: " ++ job_id))
  | Option.some _ =>
    match create_build_deps_check cfg st job_id (get_job_deps cfg job_id) with
    | Except.error e => Except.error e
    | Except.ok () =>
      Except.error (PyErr.typeError
        "create_build got an unexpected keyword argument config")

/-! ## `JobControl.prune_logs` against the memory backend -/

/-- The keyword arguments of the `prune_log_messages` call in
`JobControl.prune_logs`; the call site passes `max_age` and `leve` (sic).
`MemoryStorage.prune_log_messages(self, build_id=None, max_age=None,
level=None)` has no `leve` parameter. -/
structure PruneArgs where
  build_id : Option Nat := Option.none
  max_age : Option Nat := Option.none
  level : Option (Option Nat) := Option.none
  leve : Option (Option Nat) := Option.none

/-- `MemoryStorage.prune_log_messages`: a call passing the unknown keyword
`leve` raises TypeError before the body runs.  Otherwise filter the
messages stored under the `build_id` key (Python `None` when not given),
dropping those matching all active filters. -/
def mem_prune_log_messages (st : MemState) (kw : PruneArgs) :
    Except PyErr MemState :=
  if kw.leve.isSome then
    Except.error (PyErr.typeError
      "prune_log_messages got an unexpected keyword argument leve")
  else
    let key := kw.build_id
    let msgs := ((st.log_messages.find? (fun e => e.1 = key)).map Prod.snd).getD []
    let keep := fun (m : LogMsg) =>
      ¬ ((kw.build_id.all (fun bid => m.build_id == bid)) &&
         (kw.max_age.all (fun age => m.created + age < st.now)) &&
         ((kw.level.getD Option.none).all (fun lvl => m.levelno < lvl)))
    let pruned := msgs.filter keep
    Except.ok { st with
      log_messages :=
        if st.log_messages.any (fun e => e.1 = key) then
          st.log_messages.map (fun e => if e.1 = key then (key, pruned) else e)
        else st.log_messages ++ [(key, pruned)] }

/-- `DEFAULT_LOG_RETENTION_POLICY` of `core.py`, already in the order
`sorted(policy)` produces under Python 2 (`None` sorts before every int):
debug 15 days, info one month, warning three months, error and critical six
months, and the `None` entry (any level) one year, in seconds. -/
def DEFAULT_LOG_RETENTION_POLICY : List (Option Nat × Nat) :=
  [(Option.none, 31557600),
   (Option.some 10, 1296000),
   (Option.some 20, 2629800),
   (Option.some 30, 7889400),
   (Option.some 40, 15778800),
   (Option.some 50, 15778800)]

/-- The `for level in sorted(policy)` loop of `prune_logs`: each iteration
calls `self.storage.prune_log_messages(max_age=max_age, leve=level)`. -/
def prune_logs_loop (st : MemState) :
    List (Option Nat × Nat) → Except PyErr MemState
  | [] => Except.ok st
  | (lvl, age) :: rest =>
    match mem_prune_log_messages st
        { max_age := Option.some age, leve := Option.some lvl } with
    | Except.error e => Except.error e
    | Except.ok st' => prune_logs_loop st' rest

/-- `JobControl.prune_logs()` with no explicit policy, against the memory
backend. -/
def prune_logs_mem (st : MemState) : Except PyErr MemState :=
  prune_logs_loop st DEFAULT_LOG_RETENTION_POLICY

/-! ## Job status (`JobInfo.is_outdated`, `JobInfo.get_status`) -/

/-- Python 2 `datetime > datetime` over nullable fields: `None` compares
below every non-`None` value. -/
def py2_dt_gt : Option Nat → Option Nat → Bool
  | Option.some a, Option.some b => decide (b < a)
  | Option.some _, Option.none => true
  | Option.none, _ => false

/-- Python truthiness of `None`/`True`/`False`. -/
def optTruthy : Option Bool → Bool
  | Option.some b => b
  | Option.none => false

/-- `JobInfo.has_builds`: a started and finished build exists (the source
queries with both filters despite the docstring). -/
def has_builds (st : SpecState) (job_id : String) : Bool :=
  st.builds.any (fun b => (b.job_id == job_id) && b.started && b.finished)

/-- `JobInfo.has_successful_builds`. -/
def has_successful_builds (st : SpecState) (job_id : String) : Bool :=
  st.builds.any (fun b =>
    (b.job_id == job_id) && b.started && b.finished && b.success && !b.skipped)

/-- The `for dep in self.get_deps()` loop of `is_outdated`, scanning the
declared dependencies in configuration order: an unknown dependency id
makes `get_deps` subscript `None` (TypeError); a dependency without a
successful build returns Python `None` ("unknown"); a dependency whose
latest successful build ended strictly later than the job's returns
`True`; a fully scanned list returns `False`. -/
def is_outdated_loop (cfg : JCConfig) (st : SpecState) (ownEnd : Option Nat) :
    List String → Except PyErr (Option Bool)
  | [] => Except.ok (Option.some false)
  | d :: ds =>
    match get_job_config cfg d with
    | Option.none =>
      Except.error (PyErr.typeError "NoneType object is not subscriptable")
    | Option.some _ =>
      match spec_get_latest_successful st d with
      | Option.none => Except.ok Option.none
      | Option.some db =>
        if py2_dt_gt db.end_time ownEnd then Except.ok (Option.some true)
        else is_outdated_loop cfg st ownEnd ds

/-- `JobInfo.is_outdated`: Python `None` when the job itself has no
successful build, otherwise the dependency scan above. -/
def is_outdated (cfg : JCConfig) (st : SpecState) (job_id : String) :
    Except PyErr (Option Bool) :=
  match spec_get_latest_successful st job_id with
  | Option.none => Except.ok Option.none
  | Option.some lb => is_outdated_loop cfg st lb.end_time (get_job_deps cfg job_id)

/-- `JobInfo.get_status`: `not_built` without builds; `outdated` when
`is_outdated()` is *truthy* (so Python `None` falls through); then
`success`/`failed` by `has_successful_builds`. -/
def get_status (cfg : JCConfig) (st : SpecState) (job_id : String) :
    Except PyErr String :=
  if ¬ has_builds st job_id then Except.ok "not_built"
  else
    match is_outdated cfg st job_id with
    | Except.error e => Except.error e
    | Except.ok r =>
      if optTruthy r then Except.ok "outdated"
      else if has_successful_builds st job_id then Except.ok "success"
      else Except.ok "failed"

/-- The boolean scan used to state `is_outdated`'s behaviour over a
dependency list: some listed job has a latest successful build strictly
newer than the given end time. -/
def anyNewerIn (st : SpecState) (ownEnd : Option Nat) (ds : List String) :
    Bool :=
  ds.any (fun d =>
    match spec_get_latest_successful st d with
    | Option.none => false
    | Option.some db => py2_dt_gt db.end_time ownEnd)

/-- Some declared dependency of the job has a latest successful build
strictly newer than the job's. -/
def any_dep_newer (cfg : JCConfig) (st : SpecState) (job_id : String)
    (ownEnd : Option Nat) : Bool :=
  anyNewerIn st ownEnd (get_job_deps cfg job_id)

/-! ## A heap model for `copy.deepcopy` (`MemoryStorage.get_build` /
`get_job_builds`)

Python records are graphs of heap objects; mutating a returned record means
storing into an address reachable from it.  The model below makes this
explicit: a heap is a list of nodes addressed by index, well-formed when
every composite points only below itself (records are finite trees), and
`copy.deepcopy` allocates a fresh isomorphic subgraph at the top of the
heap. -/

/-- A heap node: an atom or a composite holding addresses of children
(a dict/list is a composite; field names are immaterial to sharing). -/
inductive HNode where
  | atom (v : Int)
  | comp (cs : List Nat)
deriving DecidableEq, Repr

/-- A heap: node at address `i` is entry `i`. -/
abbrev Heap := List HNode

/-- The pure value read out of a heap. -/
inductive HTree where
  | leaf (v : Int)
  | node (ts : List HTree)

/-- Well-formedness below a bound: every composite stored below `n` points
strictly below its own address (so object graphs are acyclic and reads
terminate). -/
def WFb (h : Heap) (n : Nat) : Prop :=
  ∀ i, i < n → ∀ cs, h[i]? = Option.some (HNode.comp cs) → ∀ c ∈ cs, c < i

/-- Full well-formedness of a heap. -/
def WFh (h : Heap) : Prop := WFb h h.length

mutual
/-- Read the pure value rooted at an address (fuel-indexed; with
well-formedness, fuel `a + 1` suffices at address `a`). -/
def readF : Nat → Heap → Nat → Option HTree
  | 0, _, _ => Option.none
  | fuel + 1, h, a =>
    match h[a]? with
    | Option.some (HNode.atom v) => Option.some (HTree.leaf v)
    | Option.some (HNode.comp cs) => (readListF fuel h cs).map HTree.node
    | Option.none => Option.none

/-- Read a list of children. -/
def readListF : Nat → Heap → List Nat → Option (List HTree)
  | _, _, [] => Option.some []
  | fuel, h, c :: cs =>
    match readF fuel h c with
    | Option.none => Option.none
    | Option.some t =>
      match readListF fuel h cs with
      | Option.none => Option.none
      | Option.some ts => Option.some (t :: ts)
end

mutual
/-- `copy.deepcopy`: copy the children left to right (threading the heap),
then append a fresh node; the fresh subgraph shares no address with the
input heap. -/
def copyF : Nat → Heap → Nat → Option (Heap × Nat)
  | 0, _, _ => Option.none
  | fuel + 1, h, a =>
    match h[a]? with
    | Option.some (HNode.atom v) => Option.some (h ++ [HNode.atom v], h.length)
    | Option.some (HNode.comp cs) =>
      match copyListF fuel h cs with
      | Option.none => Option.none
      | Option.some (h1, newcs) =>
        Option.some (h1 ++ [HNode.comp newcs], h1.length)
    | Option.none => Option.none

/-- Deep-copy a list of children, threading the heap. -/
def copyListF : Nat → Heap → List Nat → Option (Heap × List Nat)
  | _, h, [] => Option.some (h, [])
  | fuel, h, c :: cs =>
    match copyF fuel h c with
    | Option.none => Option.none
    | Option.some (h1, c') =>
      match copyListF fuel h1 cs with
      | Option.none => Option.none
      | Option.some (h2, cs') => Option.some (h2, c' :: cs')
end

/-- The stored-builds table of the heap-level `MemoryStorage` view:
`_builds` maps build ids to the root addresses of their record graphs. -/
structure HeapStorage where
  heap : Heap
  builds : List (Nat × Nat)

/-- `MemoryStorage.get_build` over the heap model: look the root address
up and return `copy.deepcopy` of the record — a fresh root in the extended
heap. -/
def heap_get_build (hs : HeapStorage) (build_id : Nat) :
    Option (Heap × Nat) :=
  match hs.builds.find? (fun e => e.1 == build_id) with
  | Option.none => Option.none
  | Option.some e => copyF (e.2 + 1) hs.heap e.2

/-- `MemoryStorage.get_job_builds` over the heap model: yield a deep copy
per selected build, threading the heap through the generator; the selection
predicate abstracts the pure field filters (`job_id`, `started`, ...) and
ordering of the source, which read but never write the records. -/
def heap_get_job_builds (h : Heap) : List Nat → Option (Heap × List Nat)
  | [] => Option.some (h, [])
  | a :: rest =>
    match copyF (a + 1) h a with
    | Option.none => Option.none
    | Option.some (h1, r) =>
      match heap_get_job_builds h1 rest with
      | Option.none => Option.none
      | Option.some (h2, rs) => Option.some (h2, r :: rs)

/-- A successful heap lookup stays within bounds. -/
theorem heap_lt_of_getElem_some {h : Heap} {a : Nat} {nd : HNode}
    (hx : h[a]? = Option.some nd) : a < h.length := by
  by_contra hc
  rw [List.getElem?_eq_none (by omega)] at hx
  exact Option.noConfusion hx

/-- Reads below a bound only depend on the heap below that bound. -/
theorem readF_agree (n : Nat) :
    ∀ fuel (h1 h2 : Heap), (∀ i, i < n → h1[i]? = h2[i]?) → WFb h1 n →
      (∀ a, a < n → readF fuel h1 a = readF fuel h2 a) ∧
      (∀ cs : List Nat, (∀ c ∈ cs, c < n) →
        readListF fuel h1 cs = readListF fuel h2 cs) := by
  intro fuel
  induction fuel with
  | zero =>
    intro h1 h2 _ _
    refine ⟨fun a _ => by simp [readF], fun cs _ => ?_⟩
    induction cs with
    | nil => simp [readListF]
    | cons c cs ih => simp [readListF, readF, ih]
  | succ f ihf =>
    intro h1 h2 hag hwf
    have hread : ∀ a, a < n → readF (f + 1) h1 a = readF (f + 1) h2 a := by
      intro a ha
      rw [readF, readF, ← hag a ha]
      match hnode : h1[a]? with
      | Option.none => rfl
      | Option.some (HNode.atom v) => rfl
      | Option.some (HNode.comp cs) =>
        show Option.map HTree.node (readListF f h1 cs) =
          Option.map HTree.node (readListF f h2 cs)
        have hcs : ∀ c ∈ cs, c < n := fun c hc =>
          Nat.lt_trans (hwf a ha cs hnode c hc) ha
        rw [(ihf h1 h2 hag hwf).2 cs hcs]
    refine ⟨hread, ?_⟩
    intro cs
    induction cs with
    | nil => intro _; simp [readListF]
    | cons c cs ih =>
      intro hcs
      have h1c := hread c (hcs c (List.mem_cons_self _ _))
      have hrest := ih (fun x hx => hcs x (List.mem_cons_of_mem _ hx))
      rw [readListF, readListF, h1c, hrest]

/-- With fuel above the address, reads of a well-formed heap succeed. -/
theorem readF_total (n : Nat) :
    ∀ fuel (h : Heap), WFb h n → n ≤ h.length →
      (∀ a, a < n → a < fuel → (readF fuel h a).isSome) ∧
      (∀ cs : List Nat, (∀ c ∈ cs, c < n ∧ c < fuel) →
        (readListF fuel h cs).isSome) := by
  intro fuel
  induction fuel with
  | zero =>
    intro h _ _
    refine ⟨fun a _ ha => by omega, fun cs hcs => ?_⟩
    match cs with
    | [] => simp [readListF]
    | c :: cs => exact absurd (hcs c (List.mem_cons_self _ _)).2 (by omega)
  | succ f ihf =>
    intro h hwf hlen
    have hread : ∀ a, a < n → a < f + 1 → (readF (f + 1) h a).isSome := by
      intro a ha _
      rw [readF]
      have halt : a < h.length := Nat.lt_of_lt_of_le ha hlen
      match hnode : h[a]? with
      | Option.none =>
        rw [List.getElem?_eq_getElem halt] at hnode
        exact Option.noConfusion hnode
      | Option.some (HNode.atom v) => rfl
      | Option.some (HNode.comp cs) =>
        show (Option.map HTree.node (readListF f h cs)).isSome = true
        have hcs : ∀ c ∈ cs, c < n ∧ c < f := fun c hc =>
          ⟨Nat.lt_trans (hwf a ha cs hnode c hc) ha,
           Nat.lt_of_lt_of_le (hwf a ha cs hnode c hc) (by omega)⟩
        have hsome := (ihf h hwf hlen).2 cs hcs
        match hlist : readListF f h cs with
        | Option.none => rw [hlist] at hsome; simp at hsome
        | Option.some ts => simp
    refine ⟨hread, ?_⟩
    intro cs
    induction cs with
    | nil => intro _; simp [readListF]
    | cons c cs ih =>
      intro hcs
      have hc := hread c (hcs c (List.mem_cons_self _ _)).1
        (hcs c (List.mem_cons_self _ _)).2
      have hrest := ih (fun x hx => hcs x (List.mem_cons_of_mem _ hx))
      rw [readListF]
      match h1 : readF (f + 1) h c with
      | Option.none => rw [h1] at hc; simp at hc
      | Option.some t =>
        match h2 : readListF (f + 1) h cs with
        | Option.none => rw [h2] at hrest; simp at hrest
        | Option.some ts => simp

/-- What a successful `copy.deepcopy` of address `a` guarantees: the heap
only grows (old cells intact and still well-formed), the copy's root is a
fresh address, the copy reads back to the same pure value, and the copy's
readout only depends on the freshly allocated region. -/
structure CopyFacts (h h' : Heap) (r a : Nat) : Prop where
  wf : WFh h'
  le : h.length ≤ h'.length
  prefix_eq : ∀ i, i < h.length → h'[i]? = h[i]?
  r_lo : h.length ≤ r
  r_hi : r < h'.length
  faithful : ∀ g, readF g h' r = readF g h a
  window : ∀ g (h2 : Heap),
    (∀ i, h.length ≤ i → i < h'.length → h2[i]? = h'[i]?) →
    readF g h2 r = readF g h' r

/-- The list version of `CopyFacts` for `copyListF`. -/
structure CopyListFacts (h h1 : Heap) (newcs cs : List Nat) : Prop where
  wf : WFh h1
  le : h.length ≤ h1.length
  prefix_eq : ∀ i, i < h.length → h1[i]? = h[i]?
  cs_bounds : ∀ c' ∈ newcs, h.length ≤ c' ∧ c' < h1.length
  faithful : ∀ g, readListF g h1 newcs = readListF g h cs
  window : ∀ g (h2 : Heap),
    (∀ i, h.length ≤ i → i < h1.length → h2[i]? = h1[i]?) →
    readListF g h2 newcs = readListF g h1 newcs

/-- Every successful deep copy from a well-formed heap satisfies
`CopyFacts` (and `CopyListFacts` for child lists). -/
theorem copyF_spec :
    ∀ fuel,
      (∀ (h : Heap) a h' r, WFh h → copyF fuel h a = Option.some (h', r) →
        CopyFacts h h' r a) ∧
      (∀ (h : Heap) cs h1 newcs, WFh h → (∀ c ∈ cs, c < h.length) →
        copyListF fuel h cs = Option.some (h1, newcs) →
        CopyListFacts h h1 newcs cs) := by
  intro fuel
  induction fuel with
  | zero =>
    constructor
    · intro h a h' r _ hcp
      rw [copyF] at hcp
      exact absurd hcp (by simp)
    · intro h cs h1 newcs hwf _ hcp
      match cs with
      | [] =>
        rw [copyListF] at hcp
        injection hcp with hpair
        injection hpair with e1 e2
        subst e1; subst e2
        exact ⟨hwf, Nat.le_refl _, fun i _ => rfl, fun c' hc' => absurd hc' (by simp),
          fun g => rfl, fun g h2 _ => by simp [readListF]⟩
      | c :: cs' =>
        rw [copyListF, copyF] at hcp
        exact absurd hcp (by simp)
  | succ f ihf =>
    obtain ⟨ihc, ihl⟩ := ihf
    have main : ∀ (h : Heap) a h' r, WFh h →
        copyF (f + 1) h a = Option.some (h', r) → CopyFacts h h' r a := by
      intro h a h' r hwf hcp
      rw [copyF] at hcp
      cases hnode : h[a]? with
      | none => rw [hnode] at hcp; exact absurd hcp (by simp)
      | some nd =>
        rw [hnode] at hcp
        have halen : a < h.length := heap_lt_of_getElem_some hnode
        cases nd with
        | atom v =>
          have hcp' : Option.some (h ++ [HNode.atom v], h.length) =
              Option.some (h', r) := hcp
          injection hcp' with hpair
          injection hpair with e1 e2
          subst e1; subst e2
          constructor
          · intro i hi cs hgc c hc
            rw [List.length_append] at hi
            by_cases hib : i < h.length
            · rw [List.getElem?_append_left hib] at hgc
              exact hwf i hib cs hgc c hc
            · have hieq : i = h.length := by simp at hi; omega
              subst hieq
              rw [List.getElem?_concat_length] at hgc
              exact absurd hgc (by simp)
          · simp
          · intro i hi; exact List.getElem?_append_left hi
          · exact Nat.le_refl _
          · simp
          · intro g
            cases g with
            | zero => simp [readF]
            | succ g' => rw [readF, readF, List.getElem?_concat_length, hnode]
          · intro g h2 hag
            cases g with
            | zero => simp [readF]
            | succ g' =>
              rw [readF, readF, hag h.length (Nat.le_refl _) (by simp),
                List.getElem?_concat_length]
        | comp cs =>
          have hcp2 : (match copyListF f h cs with
              | Option.none => Option.none
              | Option.some (h1, newcs) =>
                Option.some (h1 ++ [HNode.comp newcs], h1.length)) =
              Option.some (h', r) := hcp
          cases hlist : copyListF f h cs with
          | none => rw [hlist] at hcp2; exact absurd hcp2 (by simp)
          | some pr =>
            obtain ⟨h1, newcs⟩ := pr
            rw [hlist] at hcp2
            have hcp' : Option.some (h1 ++ [HNode.comp newcs], h1.length) =
                Option.some (h', r) := hcp2
            injection hcp' with hpair
            injection hpair with e1 e2
            subst e1; subst e2
            have hchild : ∀ c ∈ cs, c < h.length := fun c hc =>
              Nat.lt_trans (hwf a halen cs hnode c hc) halen
            have hf := ihl h cs h1 newcs hwf hchild hlist
            constructor
            · intro i hi cs' hgc c hc
              rw [List.length_append] at hi
              by_cases hib : i < h1.length
              · rw [List.getElem?_append_left hib] at hgc
                exact hf.wf i hib cs' hgc c hc
              · have hieq : i = h1.length := by simp at hi; omega
                subst hieq
                rw [List.getElem?_concat_length] at hgc
                have hcseq : newcs = cs' := by
                  injection hgc with h''
                  injection h''
                subst hcseq
                exact (hf.cs_bounds c hc).2
            · exact le_trans hf.le (by simp)
            · intro i hi
              rw [List.getElem?_append_left (Nat.lt_of_lt_of_le hi hf.le)]
              exact hf.prefix_eq i hi
            · exact hf.le
            · simp
            · intro g
              cases g with
              | zero => simp [readF]
              | succ g' =>
                rw [readF, readF, List.getElem?_concat_length, hnode]
                show Option.map HTree.node
                    (readListF g' (h1 ++ [HNode.comp newcs]) newcs) =
                  Option.map HTree.node (readListF g' h cs)
                rw [hf.window g' (h1 ++ [HNode.comp newcs])
                  (fun i _ hilt => List.getElem?_append_left hilt)]
                rw [hf.faithful g']
            · intro g h2 hag
              cases g with
              | zero => simp [readF]
              | succ g' =>
                rw [readF, readF, hag h1.length hf.le (by simp),
                  List.getElem?_concat_length]
                show Option.map HTree.node (readListF g' h2 newcs) =
                  Option.map HTree.node
                    (readListF g' (h1 ++ [HNode.comp newcs]) newcs)
                have h2w : readListF g' h2 newcs = readListF g' h1 newcs :=
                  hf.window g' h2 (fun i hlo hhi => by
                    rw [hag i hlo (Nat.lt_of_lt_of_le hhi (by simp)),
                      List.getElem?_append_left hhi])
                have hpw : readListF g' (h1 ++ [HNode.comp newcs]) newcs =
                    readListF g' h1 newcs :=
                  hf.window g' _ (fun i _ hhi => List.getElem?_append_left hhi)
                rw [h2w, hpw]
    refine ⟨main, ?_⟩
    intro h cs
    induction cs generalizing h with
    | nil =>
      intro h1 newcs hwf _ hcp
      rw [copyListF] at hcp
      injection hcp with hpair
      injection hpair with e1 e2
      subst e1; subst e2
      exact ⟨hwf, Nat.le_refl _, fun i _ => rfl, fun c' hc' => absurd hc' (by simp),
        fun g => rfl, fun g h2 _ => by simp [readListF]⟩
    | cons c ctl ihcons =>
      intro h1 newcs hwf hbound hcp
      rw [copyListF] at hcp
      cases hc1 : copyF (f + 1) h c with
      | none => rw [hc1] at hcp; exact absurd hcp (by simp)
      | some pr1 =>
        obtain ⟨ha, r1⟩ := pr1
        rw [hc1] at hcp
        have hcp2 : (match copyListF (f + 1) ha ctl with
            | Option.none => Option.none
            | Option.some (h2, cs') => Option.some (h2, r1 :: cs')) =
            Option.some (h1, newcs) := hcp
        cases hc2 : copyListF (f + 1) ha ctl with
        | none => rw [hc2] at hcp2; exact absurd hcp2 (by simp)
        | some pr2 =>
          obtain ⟨hfin, rest⟩ := pr2
          rw [hc2] at hcp2
          have hcp' : Option.some (hfin, r1 :: rest) = Option.some (h1, newcs) := hcp2
          injection hcp' with hpair
          injection hpair with e1 e2
          subst e1; subst e2
          have hf1 := main h c ha r1 hwf hc1
          have hctl : ∀ x ∈ ctl, x < ha.length := fun x hx =>
            Nat.lt_of_lt_of_le (hbound x (List.mem_cons_of_mem _ hx)) hf1.le
          have hf2 := ihcons ha hfin rest hf1.wf hctl hc2
          constructor
          · exact hf2.wf
          · exact le_trans hf1.le hf2.le
          · intro i hi
            rw [hf2.prefix_eq i (Nat.lt_of_lt_of_le hi hf1.le), hf1.prefix_eq i hi]
          · intro c' hc'
            rcases List.mem_cons.mp hc' with rfl | hmem
            · exact ⟨hf1.r_lo, Nat.lt_of_lt_of_le hf1.r_hi hf2.le⟩
            · obtain ⟨hlo, hhi⟩ := hf2.cs_bounds c' hmem
              exact ⟨le_trans hf1.le hlo, hhi⟩
          · intro g
            rw [readListF, readListF]
            have e1 : readF g hfin r1 = readF g h c := by
              rw [hf1.window g hfin (fun i _ hhi => hf2.prefix_eq i hhi)]
              exact hf1.faithful g
            have e2 : readListF g hfin rest = readListF g h ctl := by
              rw [hf2.faithful g]
              have hwfa : WFb ha h.length := by
                intro i hi cs' hgc x hx
                rw [hf1.prefix_eq i hi] at hgc
                exact hwf i hi cs' hgc x hx
              exact (readF_agree h.length g ha h
                (fun i hi => hf1.prefix_eq i hi) hwfa).2 ctl
                (fun x hx => hbound x (List.mem_cons_of_mem _ hx))
            rw [e1, e2]
          · intro g h2 hag
            rw [readListF, readListF]
            have e1 : readF g h2 r1 = readF g hfin r1 := by
              have hh2 : readF g h2 r1 = readF g ha r1 :=
                hf1.window g h2 (fun i hlo hhi => by
                  rw [hag i hlo (Nat.lt_of_lt_of_le hhi hf2.le),
                    hf2.prefix_eq i hhi])
              have hhf : readF g hfin r1 = readF g ha r1 :=
                hf1.window g hfin (fun i _ hhi => hf2.prefix_eq i hhi)
              rw [hh2, hhf]
            have e2 : readListF g h2 rest = readListF g hfin rest :=
              hf2.window g h2 (fun i hlo hhi => hag i (le_trans hf1.le hlo) hhi)
            rw [e1, e2]

/-- With fuel above the address, deep copies from a well-formed heap
succeed. -/
theorem copyF_total :
    ∀ fuel,
      (∀ (h : Heap) a, WFh h → a < h.length → a < fuel →
        (copyF fuel h a).isSome) ∧
      (∀ (h : Heap) cs, WFh h → (∀ c ∈ cs, c < h.length ∧ c < fuel) →
        (copyListF fuel h cs).isSome) := by
  intro fuel
  induction fuel with
  | zero =>
    refine ⟨fun h a _ _ ha => by omega, fun h cs _ hcs => ?_⟩
    match cs with
    | [] => rw [copyListF]; rfl
    | c :: cs' => exact absurd (hcs c (List.mem_cons_self _ _)).2 (by omega)
  | succ f ihf =>
    obtain ⟨ihc, ihl⟩ := ihf
    have main : ∀ (h : Heap) a, WFh h → a < h.length → a < f + 1 →
        (copyF (f + 1) h a).isSome := by
      intro h a hwf halen hafuel
      rw [copyF]
      match hnode : h[a]? with
      | Option.none =>
        rw [List.getElem?_eq_getElem halen] at hnode
        exact Option.noConfusion hnode
      | Option.some (HNode.atom v) => rfl
      | Option.some (HNode.comp gs) =>
        have hgs : ∀ g ∈ gs, g < h.length ∧ g < f := fun g hg =>
          ⟨Nat.lt_trans (hwf a halen gs hnode g hg) halen,
           Nat.lt_of_lt_of_le (hwf a halen gs hnode g hg)
             (Nat.lt_succ_iff.mp hafuel)⟩
        have hsome := ihl h gs hwf hgs
        show (match copyListF f h gs with
          | Option.none => Option.none
          | Option.some (h1, newcs) =>
            Option.some (h1 ++ [HNode.comp newcs], h1.length)).isSome = true
        match hlist : copyListF f h gs with
        | Option.none => rw [hlist] at hsome; simp at hsome
        | Option.some pr =>
          match pr with
          | (h1, newcs) => rfl
    refine ⟨main, ?_⟩
    intro h cs
    induction cs generalizing h with
    | nil => intro _ _; rw [copyListF]; rfl
    | cons c ctl ihcons =>
      intro hwf hcs
      rw [copyListF]
      have hcsome := main h c hwf (hcs c (List.mem_cons_self _ _)).1
        (hcs c (List.mem_cons_self _ _)).2
      match hc1 : copyF (f + 1) h c with
      | Option.none => rw [hc1] at hcsome; simp at hcsome
      | Option.some pr1 =>
        match pr1 with
        | (ha, r1) =>
          have hfacts := (copyF_spec (f + 1)).1 h c ha r1 hwf hc1
          have hctl : ∀ x ∈ ctl, x < ha.length ∧ x < f + 1 := fun x hx =>
            ⟨Nat.lt_of_lt_of_le (hcs x (List.mem_cons_of_mem _ hx)).1 hfacts.le,
             (hcs x (List.mem_cons_of_mem _ hx)).2⟩
          have hrest := ihcons ha hfacts.wf hctl
          match hc2 : copyListF (f + 1) ha ctl with
          | Option.none => rw [hc2] at hrest; simp at hrest
          | Option.some pr2 =>
            show (match copyListF (f + 1) ha ctl with
              | Option.none => Option.none
              | Option.some (h2, cs') =>
                Option.some (h2, r1 :: cs')).isSome = true
            rw [hc2]
            match pr2 with
            | (hfin, rest) => rfl

/-! ## Argument resolution: placeholder collection and the specified
substitution -/

mutual
/-- All `Retval` placeholders of a value, in traversal order. -/
def retvalRefs : PyVal → List String
  | PyVal.list xs => retvalRefsList xs
  | PyVal.tuple xs => retvalRefsList xs
  | PyVal.dict kvs => retvalRefsKvs kvs
  | PyVal.retval j => [j]
  | _ => []

/-- Placeholders of a list/tuple. -/
def retvalRefsList : PyList → List String
  | PyList.nil => []
  | PyList.cons v tl => retvalRefs v ++ retvalRefsList tl

/-- Placeholders of a dict. -/
def retvalRefsKvs : PyKvs → List String
  | PyKvs.nil => []
  | PyKvs.cons _ v tl => retvalRefs v ++ retvalRefsKvs tl
end

mutual
/-- Modelled from the spec (§4.3): the substitution that argument
resolution is required to perform — walk sequences, mappings and nested
occurrences, leave ordinary values untouched, and replace every `Retval`
placeholder by the resolved value of the referenced job. -/
def substRetvals (resolve : String → PyVal) : PyVal → PyVal
  | PyVal.list xs => PyVal.list (substRetvalsList resolve xs)
  | PyVal.tuple xs => PyVal.tuple (substRetvalsList resolve xs)
  | PyVal.dict kvs => PyVal.dict (substRetvalsKvs resolve kvs)
  | PyVal.retval j => resolve j
  | v => v

/-- Substitution over list/tuple members. -/
def substRetvalsList (resolve : String → PyVal) : PyList → PyList
  | PyList.nil => PyList.nil
  | PyList.cons v tl =>
    PyList.cons (substRetvals resolve v) (substRetvalsList resolve tl)

/-- Substitution over dict values. -/
def substRetvalsKvs (resolve : String → PyVal) : PyKvs → PyKvs
  | PyKvs.nil => PyKvs.nil
  | PyKvs.cons k v tl =>
    PyKvs.cons k (substRetvals resolve v) (substRetvalsKvs resolve tl)
end

/-- Modelled from the spec (§4.3): the resolved value of a placeholder
referencing job `j` — the pinned build's return value when the current
build's configuration pins one for `j`, otherwise the latest successful
build's return value; `none` when the build cannot be fetched. -/
def spec_resolution {St Rec : Type} (ops : StorageOps St Rec) (st : St)
    (cfg : BuildCfg) (j : String) : Option PyVal :=
  match cfg.pinned_builds.find? (fun p => p.1 = j) with
  | Option.some p => (ops.get_build st p.2).toOption.map ops.rec_retval
  | Option.none => (ops.get_latest_successful st j).map ops.rec_retval

/-- For a declared dependency whose specified resolution exists, the
engine's `Retval` branch returns exactly that value. -/
theorem resolve_retval_of_spec {St Rec : Type} (ops : StorageOps St Rec)
    (st : St) (cfg : BuildCfg) (j : String) (w : PyVal)
    (hj : j ∈ cfg.dependencies)
    (hs : spec_resolution ops st cfg j = Option.some w) :
    resolve_retval ops st cfg j = Except.ok w := by
  unfold spec_resolution at hs
  unfold resolve_retval get_dependency_build
  rw [if_pos hj]
  cases hpin : cfg.pinned_builds.find? (fun p => p.1 = j) with
  | some p =>
    rw [hpin] at hs
    dsimp only at hs ⊢
    cases hget : ops.get_build st p.2 with
    | error e => rw [hget] at hs; simp [Except.toOption] at hs
    | ok r =>
      rw [hget] at hs
      simp only [Except.toOption, Option.map] at hs
      injection hs with hw
      simp [Except.map, hw]
  | none =>
    rw [hpin] at hs
    dsimp only at hs ⊢
    cases hlat : ops.get_latest_successful st j with
    | none => rw [hlat] at hs; simp at hs
    | some r =>
      rw [hlat] at hs
      simp only [Option.map] at hs
      injection hs with hw
      simp [hw]

mutual
/-- Substitution does nothing on a value without placeholders. -/
theorem substRetvals_norefs (resolve : String → PyVal) :
    ∀ v : PyVal, retvalRefs v = [] → substRetvals resolve v = v
  | PyVal.none, _ => rfl
  | PyVal.int _, _ => rfl
  | PyVal.str _, _ => rfl
  | PyVal.bool _, _ => rfl
  | PyVal.retval _, h => by simp [retvalRefs] at h
  | PyVal.list xs, h => by
    rw [substRetvals, substRetvalsList_norefs resolve xs (by simpa [retvalRefs] using h)]
  | PyVal.tuple xs, h => by
    rw [substRetvals, substRetvalsList_norefs resolve xs (by simpa [retvalRefs] using h)]
  | PyVal.dict kvs, h => by
    rw [substRetvals, substRetvalsKvs_norefs resolve kvs (by simpa [retvalRefs] using h)]

/-- List version of `substRetvals_norefs`. -/
theorem substRetvalsList_norefs (resolve : String → PyVal) :
    ∀ xs : PyList, retvalRefsList xs = [] → substRetvalsList resolve xs = xs
  | PyList.nil, _ => rfl
  | PyList.cons v tl, h => by
    rw [retvalRefsList] at h
    obtain ⟨h1, h2⟩ := List.append_eq_nil.mp h
    rw [substRetvalsList, substRetvals_norefs resolve v h1,
      substRetvalsList_norefs resolve tl h2]

/-- Dict version of `substRetvals_norefs`. -/
theorem substRetvalsKvs_norefs (resolve : String → PyVal) :
    ∀ kvs : PyKvs, retvalRefsKvs kvs = [] → substRetvalsKvs resolve kvs = kvs
  | PyKvs.nil, _ => rfl
  | PyKvs.cons k v tl, h => by
    rw [retvalRefsKvs] at h
    obtain ⟨h1, h2⟩ := List.append_eq_nil.mp h
    rw [substRetvalsKvs, substRetvals_norefs resolve v h1,
      substRetvalsKvs_norefs resolve tl h2]
end

mutual
/-- Refinement of argument resolution: when every placeholder references a
declared dependency whose specified resolution exists, `_prepare_args`
computes exactly the substitution the spec prescribes. -/
theorem prepare_args_subst {St Rec : Type} (ops : StorageOps St Rec) (st : St)
    (cfg : BuildCfg) :
    ∀ v : PyVal,
      (∀ j ∈ retvalRefs v, j ∈ cfg.dependencies ∧
        (spec_resolution ops st cfg j).isSome) →
      prepare_args ops st cfg v = Except.ok
        (substRetvals (fun j => (spec_resolution ops st cfg j).getD PyVal.none) v)
  | PyVal.none, _ => rfl
  | PyVal.int _, _ => rfl
  | PyVal.str _, _ => rfl
  | PyVal.bool _, _ => rfl
  | PyVal.retval j, h => by
    obtain ⟨hj, hsome⟩ := h j (by simp [retvalRefs])
    obtain ⟨w, hw⟩ := Option.isSome_iff_exists.mp hsome
    rw [prepare_args, substRetvals,
      resolve_retval_of_spec ops st cfg j w hj hw, hw]
    rfl
  | PyVal.list xs, h => by
    rw [prepare_args, substRetvals,
      prepare_args_subst_list ops st cfg xs (by simpa [retvalRefs] using h)]
    rfl
  | PyVal.tuple xs, h => by
    rw [prepare_args, substRetvals,
      prepare_args_subst_list ops st cfg xs (by simpa [retvalRefs] using h)]
    rfl
  | PyVal.dict kvs, h => by
    rw [prepare_args, substRetvals,
      prepare_args_subst_kvs ops st cfg kvs (by simpa [retvalRefs] using h)]
    rfl

/-- List version of `prepare_args_subst`. -/
theorem prepare_args_subst_list {St Rec : Type} (ops : StorageOps St Rec)
    (st : St) (cfg : BuildCfg) :
    ∀ xs : PyList,
      (∀ j ∈ retvalRefsList xs, j ∈ cfg.dependencies ∧
        (spec_resolution ops st cfg j).isSome) →
      prepare_args_list ops st cfg xs = Except.ok
        (substRetvalsList
          (fun j => (spec_resolution ops st cfg j).getD PyVal.none) xs)
  | PyList.nil, _ => rfl
  | PyList.cons v tl, h => by
    have hv := prepare_args_subst ops st cfg v
      (fun j hj => h j (by rw [retvalRefsList]; exact List.mem_append_left _ hj))
    have htl := prepare_args_subst_list ops st cfg tl
      (fun j hj => h j (by rw [retvalRefsList]; exact List.mem_append_right _ hj))
    rw [prepare_args_list, hv, htl, substRetvalsList]
    rfl

/-- Dict version of `prepare_args_subst`. -/
theorem prepare_args_subst_kvs {St Rec : Type} (ops : StorageOps St Rec)
    (st : St) (cfg : BuildCfg) :
    ∀ kvs : PyKvs,
      (∀ j ∈ retvalRefsKvs kvs, j ∈ cfg.dependencies ∧
        (spec_resolution ops st cfg j).isSome) →
      prepare_args_kvs ops st cfg kvs = Except.ok
        (substRetvalsKvs
          (fun j => (spec_resolution ops st cfg j).getD PyVal.none) kvs)
  | PyKvs.nil, _ => rfl
  | PyKvs.cons k v tl, h => by
    have hv := prepare_args_subst ops st cfg v
      (fun j hj => h j (by rw [retvalRefsKvs]; exact List.mem_append_left _ hj))
    have htl := prepare_args_subst_kvs ops st cfg tl
      (fun j hj => h j (by rw [retvalRefsKvs]; exact List.mem_append_right _ hj))
    rw [prepare_args_kvs, hv, htl, substRetvalsKvs]
    rfl
end

mutual
/-- A successful resolution implies every placeholder referenced a declared
dependency (an undeclared reference always raises). -/
theorem prepare_args_ok_declared {St Rec : Type} (ops : StorageOps St Rec)
    (st : St) (cfg : BuildCfg) :
    ∀ (v : PyVal) (w : PyVal), prepare_args ops st cfg v = Except.ok w →
      ∀ j ∈ retvalRefs v, j ∈ cfg.dependencies
  | PyVal.none, _, _ => by simp [retvalRefs]
  | PyVal.int _, _, _ => by simp [retvalRefs]
  | PyVal.str _, _, _ => by simp [retvalRefs]
  | PyVal.bool _, _, _ => by simp [retvalRefs]
  | PyVal.retval j0, w, hok => by
    intro j hj
    rw [retvalRefs, List.mem_singleton] at hj
    subst hj
    by_contra hnd
    rw [prepare_args] at hok
    unfold resolve_retval get_dependency_build at hok
    rw [if_neg hnd] at hok
    exact Except.noConfusion hok
  | PyVal.list xs, w, hok => by
    intro j hj
    rw [retvalRefs] at hj
    rw [prepare_args] at hok
    cases hxs : prepare_args_list ops st cfg xs with
    | error e => rw [hxs] at hok; exact Except.noConfusion hok
    | ok ws => exact prepare_args_ok_declared_list ops st cfg xs ws hxs j hj
  | PyVal.tuple xs, w, hok => by
    intro j hj
    rw [retvalRefs] at hj
    rw [prepare_args] at hok
    cases hxs : prepare_args_list ops st cfg xs with
    | error e => rw [hxs] at hok; exact Except.noConfusion hok
    | ok ws => exact prepare_args_ok_declared_list ops st cfg xs ws hxs j hj
  | PyVal.dict kvs, w, hok => by
    intro j hj
    rw [retvalRefs] at hj
    rw [prepare_args] at hok
    cases hkvs : prepare_args_kvs ops st cfg kvs with
    | error e => rw [hkvs] at hok; exact Except.noConfusion hok
    | ok ws => exact prepare_args_ok_declared_kvs ops st cfg kvs ws hkvs j hj

/-- List version of `prepare_args_ok_declared`. -/
theorem prepare_args_ok_declared_list {St Rec : Type} (ops : StorageOps St Rec)
    (st : St) (cfg : BuildCfg) :
    ∀ (xs : PyList) (ws : PyList),
      prepare_args_list ops st cfg xs = Except.ok ws →
      ∀ j ∈ retvalRefsList xs, j ∈ cfg.dependencies
  | PyList.nil, _, _ => by simp [retvalRefsList]
  | PyList.cons v tl, ws, hok => by
    intro j hj
    rw [retvalRefsList] at hj
    rw [prepare_args_list] at hok
    cases hv : prepare_args ops st cfg v with
    | error e => rw [hv] at hok; exact Except.noConfusion hok
    | ok w1 =>
      rw [hv] at hok
      cases htl : prepare_args_list ops st cfg tl with
      | error e =>
        rw [htl] at hok
        exact Except.noConfusion hok
      | ok wtl =>
        rcases List.mem_append.mp hj with hjv | hjtl
        · exact prepare_args_ok_declared ops st cfg v w1 hv j hjv
        · exact prepare_args_ok_declared_list ops st cfg tl wtl htl j hjtl

/-- Dict version of `prepare_args_ok_declared`. -/
theorem prepare_args_ok_declared_kvs {St Rec : Type} (ops : StorageOps St Rec)
    (st : St) (cfg : BuildCfg) :
    ∀ (kvs : PyKvs) (ws : PyKvs),
      prepare_args_kvs ops st cfg kvs = Except.ok ws →
      ∀ j ∈ retvalRefsKvs kvs, j ∈ cfg.dependencies
  | PyKvs.nil, _, _ => by simp [retvalRefsKvs]
  | PyKvs.cons k v tl, ws, hok => by
    intro j hj
    rw [retvalRefsKvs] at hj
    rw [prepare_args_kvs] at hok
    cases hv : prepare_args ops st cfg v with
    | error e => rw [hv] at hok; exact Except.noConfusion hok
    | ok w1 =>
      rw [hv] at hok
      cases htl : prepare_args_kvs ops st cfg tl with
      | error e =>
        rw [htl] at hok
        exact Except.noConfusion hok
      | ok wtl =>
        rcases List.mem_append.mp hj with hjv | hjtl
        · exact prepare_args_ok_declared ops st cfg v w1 hv j hjv
        · exact prepare_args_ok_declared_kvs ops st cfg tl wtl htl j hjtl
end

mutual
/-- When every declared placeholder resolves, resolution either succeeds or
fails with a ValueError-class error (the undeclared-dependency error). -/
theorem prepare_args_err_kind {St Rec : Type} (ops : StorageOps St Rec)
    (st : St) (cfg : BuildCfg) :
    ∀ v : PyVal,
      (∀ j ∈ retvalRefs v, j ∈ cfg.dependencies →
        ∃ w, resolve_retval ops st cfg j = Except.ok w) →
      (∃ w, prepare_args ops st cfg v = Except.ok w) ∨
      (∃ m, prepare_args ops st cfg v = Except.error (PyErr.valueError m))
  | PyVal.none, _ => Or.inl ⟨_, rfl⟩
  | PyVal.int _, _ => Or.inl ⟨_, rfl⟩
  | PyVal.str _, _ => Or.inl ⟨_, rfl⟩
  | PyVal.bool _, _ => Or.inl ⟨_, rfl⟩
  | PyVal.retval j, h => by
    by_cases hj : j ∈ cfg.dependencies
    · obtain ⟨w, hw⟩ := h j (by simp [retvalRefs]) hj
      exact Or.inl ⟨w, by rw [prepare_args]; exact hw⟩
    · refine Or.inr ⟨"Job " ++ j ++ " is not a dependency of this build", ?_⟩
      rw [prepare_args]
      unfold resolve_retval get_dependency_build
      rw [if_neg hj]
  | PyVal.list xs, h => by
    rcases prepare_args_err_kind_list ops st cfg xs
        (fun j hj => h j (by rw [retvalRefs]; exact hj)) with ⟨ws, hws⟩ | ⟨m, hm⟩
    · exact Or.inl ⟨PyVal.list ws, by rw [prepare_args, hws]; rfl⟩
    · exact Or.inr ⟨m, by rw [prepare_args, hm]; rfl⟩
  | PyVal.tuple xs, h => by
    rcases prepare_args_err_kind_list ops st cfg xs
        (fun j hj => h j (by rw [retvalRefs]; exact hj)) with ⟨ws, hws⟩ | ⟨m, hm⟩
    · exact Or.inl ⟨PyVal.tuple ws, by rw [prepare_args, hws]; rfl⟩
    · exact Or.inr ⟨m, by rw [prepare_args, hm]; rfl⟩
  | PyVal.dict kvs, h => by
    rcases prepare_args_err_kind_kvs ops st cfg kvs
        (fun j hj => h j (by rw [retvalRefs]; exact hj)) with ⟨ws, hws⟩ | ⟨m, hm⟩
    · exact Or.inl ⟨PyVal.dict ws, by rw [prepare_args, hws]; rfl⟩
    · exact Or.inr ⟨m, by rw [prepare_args, hm]; rfl⟩

/-- List version of `prepare_args_err_kind`. -/
theorem prepare_args_err_kind_list {St Rec : Type} (ops : StorageOps St Rec)
    (st : St) (cfg : BuildCfg) :
    ∀ xs : PyList,
      (∀ j ∈ retvalRefsList xs, j ∈ cfg.dependencies →
        ∃ w, resolve_retval ops st cfg j = Except.ok w) →
      (∃ ws, prepare_args_list ops st cfg xs = Except.ok ws) ∨
      (∃ m, prepare_args_list ops st cfg xs = Except.error (PyErr.valueError m))
  | PyList.nil, _ => Or.inl ⟨_, rfl⟩
  | PyList.cons v tl, h => by
    rcases prepare_args_err_kind ops st cfg v
        (fun j hj => h j (by rw [retvalRefsList]; exact List.mem_append_left _ hj))
      with ⟨w, hw⟩ | ⟨m, hm⟩
    · rcases prepare_args_err_kind_list ops st cfg tl
          (fun j hj => h j
            (by rw [retvalRefsList]; exact List.mem_append_right _ hj))
        with ⟨ws, hws⟩ | ⟨m, hm⟩
      · exact Or.inl ⟨PyList.cons w ws, by rw [prepare_args_list, hw, hws]; rfl⟩
      · exact Or.inr ⟨m, by rw [prepare_args_list, hw, hm]; rfl⟩
    · exact Or.inr ⟨m, by rw [prepare_args_list, hm]⟩
  
/-- Dict version of `prepare_args_err_kind`. -/
theorem prepare_args_err_kind_kvs {St Rec : Type} (ops : StorageOps St Rec)
    (st : St) (cfg : BuildCfg) :
    ∀ kvs : PyKvs,
      (∀ j ∈ retvalRefsKvs kvs, j ∈ cfg.dependencies →
        ∃ w, resolve_retval ops st cfg j = Except.ok w) →
      (∃ ws, prepare_args_kvs ops st cfg kvs = Except.ok ws) ∨
      (∃ m, prepare_args_kvs ops st cfg kvs = Except.error (PyErr.valueError m))
  | PyKvs.nil, _ => Or.inl ⟨_, rfl⟩
  | PyKvs.cons k v tl, h => by
    rcases prepare_args_err_kind ops st cfg v
        (fun j hj => h j (by rw [retvalRefsKvs]; exact List.mem_append_left _ hj))
      with ⟨w, hw⟩ | ⟨m, hm⟩
    · rcases prepare_args_err_kind_kvs ops st cfg tl
          (fun j hj => h j
            (by rw [retvalRefsKvs]; exact List.mem_append_right _ hj))
        with ⟨ws, hws⟩ | ⟨m, hm⟩
      · exact Or.inl ⟨PyKvs.cons k w ws, by rw [prepare_args_kvs, hw, hws]; rfl⟩
      · exact Or.inr ⟨m, by rw [prepare_args_kvs, hw, hm]; rfl⟩
    · exact Or.inr ⟨m, by rw [prepare_args_kvs, hm]⟩
end

/-! ## Helper lemmas for the claim theorems -/

/-- `spec_get_build` succeeds exactly on the looked-up record. -/
theorem spec_get_build_find (st : SpecState) (bid : Nat) (brec : SpecBuild)
    (h : spec_get_build st bid = Except.ok brec) :
    st.builds.find? (fun b => b.id == bid) = Option.some brec := by
  unfold spec_get_build at h
  cases hf : st.builds.find? (fun b => b.id == bid) with
  | none => rw [hf] at h; exact Except.noConfusion h
  | some b => rw [hf] at h; injection h with hb; rw [hb]

/-- Updating a build keeps it first in the lookup, with the update
applied. -/
theorem find_map_update (bs : List SpecBuild) (bid : Nat)
    (f : SpecBuild → SpecBuild) (hid : ∀ b, (f b).id = b.id)
    (brec : SpecBuild) (h : bs.find? (fun b => b.id == bid) = Option.some brec) :
    (bs.map (fun b => if b.id == bid then f b else b)).find?
      (fun b => b.id == bid) = Option.some (f brec) := by
  induction bs with
  | nil => simp at h
  | cons b tl ih =>
    by_cases hb : b.id = bid
    · rw [List.find?_cons_of_pos _ (by simp [hb])] at h
      injection h with hb'
      subst hb'
      rw [List.map_cons, if_pos (by simp [hb])]
      exact List.find?_cons_of_pos _ (by simp [hid, hb])
    · rw [List.find?_cons_of_neg _ (by simp [hb])] at h
      rw [List.map_cons, if_neg (by simp [hb])]
      rw [List.find?_cons_of_neg _ (by simp [hb])]
      exact ih h

/-- The memory-backend version of `find_map_update`. -/
theorem find_map_update_mem (bs : List MemBuild) (bid : Nat)
    (f : MemBuild → MemBuild) (hid : ∀ b, (f b).id = b.id)
    (brec : MemBuild) (h : bs.find? (fun b => b.id == bid) = Option.some brec) :
    (bs.map (fun b => if b.id == bid then f b else b)).find?
      (fun b => b.id == bid) = Option.some (f brec) := by
  induction bs with
  | nil => simp at h
  | cons b tl ih =>
    by_cases hb : b.id = bid
    · rw [List.find?_cons_of_pos _ (by simp [hb])] at h
      injection h with hb'
      subst hb'
      rw [List.map_cons, if_pos (by simp [hb])]
      exact List.find?_cons_of_pos _ (by simp [hid, hb])
    · rw [List.find?_cons_of_neg _ (by simp [hb])] at h
      rw [List.map_cons, if_neg (by simp [hb])]
      rw [List.find?_cons_of_neg _ (by simp [hb])]
      exact ih h

/-- Mutating any address at or above the original heap's length leaves the
readout of every stored (original) address unchanged. -/
theorem stored_reads_stable (h h' : Heap)
    (hpre : ∀ i, i < h.length → h'[i]? = h[i]?) (hwf : WFh h)
    (m : Nat) (hm : h.length ≤ m) (o : HNode) :
    ∀ g baddr, baddr < h.length →
      readF g (h'.set m o) baddr = readF g h baddr := by
  intro g baddr hb
  have hag : ∀ i, i < h.length → (h'.set m o)[i]? = h[i]? := by
    intro i hi
    rw [List.getElem?_set_ne (by omega), hpre i hi]
  have hwfb : WFb (h'.set m o) h.length := by
    intro i hi cs hgc c hc
    rw [hag i hi] at hgc
    exact hwf i hi cs hgc c hc
  exact (readF_agree h.length g (h'.set m o) h hag hwfb).1 baddr hb

/-- `get_job_builds` facts over the heap model: the original region is
untouched, and every yielded record is a fresh copy whose readout depends
only on the fresh region. -/
theorem heap_get_job_builds_facts :
    ∀ (sel : List Nat) (h H : Heap) (rs : List Nat), WFh h →
      (∀ a ∈ sel, a < h.length) →
      heap_get_job_builds h sel = Option.some (H, rs) →
      WFh H ∧ h.length ≤ H.length ∧ (∀ i, i < h.length → H[i]? = h[i]?) ∧
      (∀ r' ∈ rs, h.length ≤ r' ∧ r' < H.length ∧
        (∀ g (h2 : Heap),
          (∀ i, h.length ≤ i → i < H.length → h2[i]? = H[i]?) →
          readF g h2 r' = readF g H r')) := by
  intro sel
  induction sel with
  | nil =>
    intro h H rs hwf _ hrun
    rw [heap_get_job_builds] at hrun
    injection hrun with hpair
    injection hpair with e1 e2
    subst e1; subst e2
    exact ⟨hwf, Nat.le_refl _, fun i _ => rfl, fun r' hr' => absurd hr' (by simp)⟩
  | cons a rest ih =>
    intro h H rs hwf hsel hrun
    rw [heap_get_job_builds] at hrun
    cases hc1 : copyF (a + 1) h a with
    | none => rw [hc1] at hrun; exact Option.noConfusion hrun
    | some pr1 =>
      obtain ⟨h1, r1⟩ := pr1
      rw [hc1] at hrun
      have hcp2 : (match heap_get_job_builds h1 rest with
          | Option.none => Option.none
          | Option.some (h2, rs') => Option.some (h2, r1 :: rs')) =
          Option.some (H, rs) := hrun
      cases hc2 : heap_get_job_builds h1 rest with
      | none => rw [hc2] at hcp2; exact Option.noConfusion hcp2
      | some pr2 =>
        obtain ⟨H2, rs2⟩ := pr2
        rw [hc2] at hcp2
        injection hcp2 with hpair
        injection hpair with e1 e2
        subst e1; subst e2
        have hf1 := (copyF_spec (a + 1)).1 h a h1 r1 hwf hc1
        have hrest := ih h1 H2 rs2 hf1.wf
          (fun x hx => Nat.lt_of_lt_of_le (hsel x (List.mem_cons_of_mem _ hx))
            hf1.le) hc2
        obtain ⟨hWF, hle2, hpre2, hfacts2⟩ := hrest
        refine ⟨hWF, le_trans hf1.le hle2, ?_, ?_⟩
        · intro i hi
          rw [hpre2 i (Nat.lt_of_lt_of_le hi hf1.le), hf1.prefix_eq i hi]
        · intro r' hr'
          rcases List.mem_cons.mp hr' with rfl | hmem
          · refine ⟨hf1.r_lo, Nat.lt_of_lt_of_le hf1.r_hi hle2, ?_⟩
            intro g h2 hag
            have hh2 : readF g h2 r' = readF g h1 r' :=
              hf1.window g h2 (fun i hlo hhi => by
                rw [hag i hlo (Nat.lt_of_lt_of_le hhi hle2), hpre2 i hhi])
            have hH : readF g H2 r' = readF g h1 r' :=
              hf1.window g H2 (fun i _ hhi => hpre2 i hhi)
            rw [hh2, hH]
          · obtain ⟨hlo, hhi, hwin⟩ := hfacts2 r' hmem
            exact ⟨le_trans hf1.le hlo, hhi,
              fun g h2 hag => hwin g h2
                (fun i hlo' hhi' => hag i (le_trans hf1.le hlo') hhi')⟩

/-! ## Claim theorems -/

/-- The job configuration of the C1 failing input. -/
def c1_job_config : BuildCfg := { function := Option.some "mod:boom" }

/-- The C1 failing input: a memory storage holding one build (id 0) of job
`j`, created through `MemoryStorage.create_build` with its actual
signature. -/
def c1_state : MemState := (mem_create_build {} "j" c1_job_config PyVal.none).1

/-- A function environment whose every callable raises `ValueError`. -/
def c1_fenv : FuncEnv :=
  fun _ => Option.some (fun _ _ => CallOutcome.exc (PyErr.valueError "boom"))

/-- C1: evaluation of `run_build` at the failing input.  With the
in-memory reference backend, the `try` block raises (the stored record has
no `config` key), the `except Exception` handler calls
`finish_build(..., exception_tb=...)`, and since
`MemoryStorage.finish_build` has no `exception_tb` parameter that call
raises TypeError: the exception propagates out of `run_build`, the build
is never recorded as finished — contradicting the claim that the failure
is recorded and nothing propagates — and only the context-stack clause of
the claim holds (the stack is restored by the `finally`). -/
theorem run_build_memory_failure_typeerror :
    (run_build memOps c1_fenv c1_state [] 0).raised =
      Option.some (PyErr.typeError
        "finish_build got an unexpected keyword argument exception_tb") ∧
    (run_build memOps c1_fenv c1_state [] 0).stack = [] ∧
    ((run_build memOps c1_fenv c1_state [] 0).state.builds.find?
        (fun b => b.id == 0)).map
      (fun b => (b.started, b.finished, b.exception)) =
      Option.some (true, false, Option.none) := by
  refine ⟨rfl, rfl, rfl⟩

/-- A configuration with job `a` depending on `b`, and `b` standalone. -/
def c2_cfg_ab : JCConfig :=
  [⟨"a", { function := Option.some "m:f", dependencies := ["b"] }⟩,
   ⟨"b", { function := Option.some "m:g" }⟩]

/-- A configuration with the single dependency-free job `a`. -/
def c2_cfg_a : JCConfig := [⟨"a", { function := Option.some "m:f" }⟩]

/-- C2: evaluation of `create_build` against the memory backend.  The
`MissingDependencies` half of the claim holds: with dependency `b` lacking
a successful build, `create_build` raises `MissingDependencies` before any
record is created.  The creation half fails: with all dependency checks
passing, the call
`storage.create_build(job_id=..., config=...)` cannot bind against
`MemoryStorage.create_build(self, job_id, job_config, build_config)` and
raises TypeError — no build record is ever created. -/
theorem create_build_memory_results :
    create_build_mem c2_cfg_ab {} "a" =
      Except.error (PyErr.missingDependencies
        "Dependency job a has no successful builds") ∧
    create_build_mem c2_cfg_a {} "a" =
      Except.error (PyErr.typeError
        "create_build got an unexpected keyword argument config") := by
  refine ⟨rfl, rfl⟩

/-- C9: `prune_logs()` with the default retention policy always raises
TypeError against the memory backend — the call site passes the keyword
`leve` (a typo for `level`), which `MemoryStorage.prune_log_messages` does
not accept; the error is raised on the first policy entry, before any
message is pruned, so no message is ever removed. -/
theorem prune_logs_leve_typeerror :
    ∀ st : MemState, prune_logs_mem st =
      Except.error (PyErr.typeError
        "prune_log_messages got an unexpected keyword argument leve") := by
  intro st
  rfl

/-- C6: dependency-graph construction marks each job id processed before
recursing, so the exploration terminates on every finite configuration —
cyclic ones included, in both plain and `complete` mode — and the
resolver fails with `CycleDetected` (rather than truncating) on any
adjacency table containing a dependency cycle. -/
theorem depgraph_terminates_and_cycle_detected :
    (∀ (cfg : JCConfig) (job_id : String) (complete : Bool),
      (create_job_depgraph cfg job_id complete).isSome) ∧
    (∀ (g : List (String × List String)) (c : List String),
      (g.map Prod.fst).Nodup → IsCycle g c →
      resolve_deps g = Except.error PyErr.cycleDetected) := by
  refine ⟨create_job_depgraph_total, ?_⟩
  intro g c hnd hcyc
  exact kahnSort_cycle c g.length g [] rfl hnd hcyc

/-- Witness for C6: the two-job cycle `a → b → a` is reported as
`CycleDetected`. -/
theorem depgraph_terminates_and_cycle_detected_witness :
    resolve_deps [("a", ["b"]), ("b", ["a"])] =
      Except.error PyErr.cycleDetected := by
  refine depgraph_terminates_and_cycle_detected.2
    [("a", ["b"]), ("b", ["a"])] ["a", "b"] (by decide) ⟨by decide, ?_⟩
  intro i
  fin_cases i
  · exact ⟨["b"], by decide, by decide⟩
  · exact ⟨["a"], by decide, by decide⟩

/-- The fully evaluated `from_table` of the `fetch` sub-table of the C7
example. -/
theorem c7_fetch_eval :
    from_table [⟨Option.some [], Option.some 3, Option.some 10, Option.some "f"⟩]
      (Option.some "fetch") =
    PRep.mk (Option.some "fetch") (Option.some 3) (Option.some 10)
      (Option.some "f") PRepList.nil := by
  rw [from_table]
  rfl

/-- The fully evaluated `from_table` of the `parse` sub-table of the C7
example. -/
theorem c7_parse_eval :
    from_table [⟨Option.some [], Option.some 1, Option.some 4, Option.some "p"⟩]
      (Option.some "parse") =
    PRep.mk (Option.some "parse") (Option.some 1) (Option.some 4)
      (Option.some "p") PRepList.nil := by
  rw [from_table]
  rfl

/-- The C7 example table:
`[((), None, None, ""), (("fetch",), 3, 10, "…"), (("parse",), 1, 4, "…")]`. -/
def c7_table : List PRow :=
  [⟨Option.some [], Option.none, Option.none, Option.some ""⟩,
   ⟨Option.some ["fetch"], Option.some 3, Option.some 10, Option.some "f"⟩,
   ⟨Option.some ["parse"], Option.some 1, Option.some 4, Option.some "p"⟩]

/-- C7: `from_table` aggregation — a node whose `current`/`total` was
never supplied derives both as the sum of its children's (possibly
themselves derived) values; children appear in first-appearance order of
their path segment; and on the example table the root reports
`current = 4`, `total = 14` with children `fetch`, `parse` in that
order. -/
theorem progress_from_table_aggregation :
    (∀ (name : Option String) (tot : Option Int) (sl : Option String)
        (ch : PRepList),
      PRep.current (PRep.mk name Option.none tot sl ch) =
        PRepList.sumCurrent ch ∧
      PRep.total (PRep.mk name Option.none Option.none sl ch) =
        PRepList.sumTotal ch) ∧
    (∀ (t : List PRow) (b : Option String),
      PRepList.names (from_table t b).children =
        (tableHeads t).map Option.some) ∧
    (PRep.current (from_table c7_table Option.none) = 4 ∧
     PRep.total (from_table c7_table Option.none) = 14 ∧
     PRepList.names (from_table c7_table Option.none).children =
       [Option.some "fetch", Option.some "parse"]) := by
  refine ⟨?_, ?_, ?_⟩
  · intro name tot sl ch
    constructor
    · rw [PRep.current]
    · rw [PRep.total]
  · intro t b
    rw [from_table]
    have hnames : ∀ l : List PRep,
        PRepList.names (PRepList.ofList l) = l.map PRep.name := by
      intro l
      induction l with
      | nil => rfl
      | cons p ps ih => rw [PRepList.ofList, PRepList.names, ih, List.map_cons]
    have hname : ∀ (t' : List PRow) (b' : Option String),
        (from_table t' b').name = b' := by
      intro t' b'
      rw [from_table]
      cases lastRootRow t' with
      | none => rfl
      | some r => rfl
    cases lastRootRow t with
    | none =>
      rw [PRep.children, hnames, List.map_map]
      rw [show ((fun p => PRep.name p) ∘ fun x =>
          from_table (subTable t x.1) (Option.some x.1)) =
        (fun x : {x // x ∈ tableHeads t} => Option.some x.1) from
          funext (fun x => hname _ _)]
      exact List.attach_map_coe _ _
    | some r =>
      rw [PRep.children, hnames, List.map_map]
      rw [show ((fun p => PRep.name p) ∘ fun x =>
          from_table (subTable t x.1) (Option.some x.1)) =
        (fun x : {x // x ∈ tableHeads t} => Option.some x.1) from
          funext (fun x => hname _ _)]
      exact List.attach_map_coe _ _
  · have htree : from_table c7_table Option.none =
        PRep.mk Option.none Option.none Option.none (Option.some "")
          (PRepList.ofList
            [PRep.mk (Option.some "fetch") (Option.some 3) (Option.some 10)
              (Option.some "f") PRepList.nil,
             PRep.mk (Option.some "parse") (Option.some 1) (Option.some 4)
              (Option.some "p") PRepList.nil]) := by
      rw [from_table]
      show PRep.mk Option.none Option.none Option.none (Option.some "")
        (PRepList.ofList
          [from_table
            [⟨Option.some [], Option.some 3, Option.some 10, Option.some "f"⟩]
            (Option.some "fetch"),
           from_table
            [⟨Option.some [], Option.some 1, Option.some 4, Option.some "p"⟩]
            (Option.some "parse")]) = _
      rw [c7_fetch_eval, c7_parse_eval]
    rw [htree]
    refine ⟨?_, ?_, ?_⟩ <;> decide

/-- C3: `_prepare_args` replaces every placeholder, however deeply nested
in lists, tuples and dicts, before the callable is invoked: (a) when every
placeholder references a declared dependency with a resolvable build, the
result is exactly the specified substitution (pinned build's return value
when pinned, else the latest successful build's); (b) a placeholder
referencing an undeclared job id raises a ValueError-class error; (c) that
error surfaces from the `try`-block before the callable is invoked — for
every function environment that resolves the callable, `build_phase`
returns the ValueError, independently of what the callable would do. -/
theorem prepare_args_resolution {St Rec : Type} (ops : StorageOps St Rec)
    (st : St) (cfg : BuildCfg) :
    (∀ v : PyVal,
      (∀ j ∈ retvalRefs v, j ∈ cfg.dependencies ∧
        (spec_resolution ops st cfg j).isSome) →
      prepare_args ops st cfg v = Except.ok
        (substRetvals
          (fun j => (spec_resolution ops st cfg j).getD PyVal.none) v)) ∧
    (∀ v : PyVal,
      (∃ j ∈ retvalRefs v, j ∉ cfg.dependencies) →
      (∀ j ∈ retvalRefs v, j ∈ cfg.dependencies →
        ∃ w, resolve_retval ops st cfg j = Except.ok w) →
      ∃ m, prepare_args ops st cfg v = Except.error (PyErr.valueError m)) ∧
    (∀ (fenv : FuncEnv) (brec : Rec),
      ops.rec_config brec = Except.ok cfg →
      (∃ f, get_runner_function fenv cfg.function = Except.ok f) →
      (∃ j ∈ retvalRefsList cfg.args, j ∉ cfg.dependencies) →
      (∀ j ∈ retvalRefsList cfg.args, j ∈ cfg.dependencies →
        ∃ w, resolve_retval ops st cfg j = Except.ok w) →
      ∃ m, build_phase ops fenv st brec = Except.error (PyErr.valueError m)) := by
  have hbad : ∀ v : PyVal,
      (∃ j ∈ retvalRefs v, j ∉ cfg.dependencies) →
      (∀ j ∈ retvalRefs v, j ∈ cfg.dependencies →
        ∃ w, resolve_retval ops st cfg j = Except.ok w) →
      ∃ m, prepare_args ops st cfg v = Except.error (PyErr.valueError m) := by
    intro v hex hres
    rcases prepare_args_err_kind ops st cfg v hres with ⟨w, hw⟩ | ⟨m, hm⟩
    · obtain ⟨j, hj, hnd⟩ := hex
      exact absurd (prepare_args_ok_declared ops st cfg v w hw j hj) hnd
    · exact ⟨m, hm⟩
  refine ⟨prepare_args_subst ops st cfg, hbad, ?_⟩
  intro fenv brec hrc ⟨f, hf⟩ hex hres
  obtain ⟨m, hm⟩ := hbad (PyVal.tuple cfg.args)
    (by rw [retvalRefs]; exact hex) (by rw [retvalRefs]; exact hres)
  refine ⟨m, ?_⟩
  rw [build_phase, hrc]
  show (match get_runner_function fenv cfg.function with
    | Except.error e => Except.error e
    | Except.ok f =>
      match prepare_args ops st cfg (PyVal.tuple cfg.args) with
      | Except.error e => Except.error e
      | Except.ok args =>
        match prepare_args ops st cfg (PyVal.dict cfg.kwargs) with
        | Except.error e => Except.error e
        | Except.ok kwargs =>
          match f args kwargs with
          | CallOutcome.ret v => Except.ok v
          | CallOutcome.exc e => Except.error e) =
    Except.error (PyErr.valueError m)
  rw [hf, hm]

/-- The storage state of the C3 witness: two successful builds of job `A`
(return values 3 then 10) and one successful build (id 2) of job `P`
(return value 7). -/
def c3_st : SpecState :=
  { builds :=
      [{ id := 0, job_id := "A", start_time := Option.some 0,
         end_time := Option.some 1, started := true, finished := true,
         success := true, skipped := false, config := {},
         retval := PyVal.int 3 },
       { id := 1, job_id := "A", start_time := Option.some 2,
         end_time := Option.some 3, started := true, finished := true,
         success := true, skipped := false, config := {},
         retval := PyVal.int 10 },
       { id := 2, job_id := "P", start_time := Option.some 4,
         end_time := Option.some 5, started := true, finished := true,
         success := true, skipped := false, config := {},
         retval := PyVal.int 7 }]
    seq := 3, now := 6 }

/-- The build configuration of the C3 witness: dependencies `A` and `P`,
with `P` pinned to build 2. -/
def c3_cfg : BuildCfg :=
  { dependencies := ["A", "P"], pinned_builds := [("P", 2)] }

/-- The nested argument value of the C3 witness. -/
def c3_v : PyVal :=
  PyVal.tuple (PyList.cons (PyVal.retval "A")
    (PyList.cons (PyVal.list (PyList.cons (PyVal.retval "P") PyList.nil))
      PyList.nil))

/-- Witness for C3: the unpinned placeholder resolves to `A`'s latest
successful return value 10, the pinned one to build 2's value 7 (nested in
a list), and a placeholder for the undeclared job `C` yields a
ValueError. -/
theorem prepare_args_resolution_witness :
    prepare_args (specOps (fun _ => true)) c3_st c3_cfg c3_v = Except.ok
      (PyVal.tuple (PyList.cons (PyVal.int 10)
        (PyList.cons (PyVal.list (PyList.cons (PyVal.int 7) PyList.nil))
          PyList.nil))) ∧
    (∃ m, prepare_args (specOps (fun _ => true)) c3_st c3_cfg
      (PyVal.retval "C") = Except.error (PyErr.valueError m)) := by
  constructor
  · have h := (prepare_args_resolution (specOps (fun _ => true)) c3_st c3_cfg).1
      c3_v (by decide)
    rw [h]
    rfl
  · refine (prepare_args_resolution (specOps (fun _ => true)) c3_st c3_cfg).2.1
      (PyVal.retval "C") ⟨"C", by decide, by decide⟩ ?_
    intro j hj hmem
    have hjc : j = "C" := by
      rw [retvalRefs, List.mem_singleton] at hj
      exact hj
    subst hjc
    exact absurd hmem (by decide)

/-- When every scanned dependency exists and has a successful build, the
`is_outdated` loop computes exactly "some dependency build is newer". -/
theorem is_outdated_loop_all (cfg : JCConfig) (st : SpecState)
    (ownEnd : Option Nat) :
    ∀ ds : List String,
      (∀ d ∈ ds, (get_job_config cfg d).isSome) →
      (∀ d ∈ ds, (spec_get_latest_successful st d).isSome) →
      is_outdated_loop cfg st ownEnd ds =
        Except.ok (Option.some (anyNewerIn st ownEnd ds)) := by
  intro ds
  induction ds with
  | nil => intro _ _; rfl
  | cons d dtl ih =>
    intro hcfg hlat
    obtain ⟨jc, hjc⟩ := Option.isSome_iff_exists.mp
      (hcfg d (List.mem_cons_self _ _))
    obtain ⟨db, hdb⟩ := Option.isSome_iff_exists.mp
      (hlat d (List.mem_cons_self _ _))
    rw [is_outdated_loop, hjc, hdb]
    dsimp only
    by_cases hnew : py2_dt_gt db.end_time ownEnd
    · rw [if_pos hnew]
      simp [anyNewerIn, hdb, hnew]
    · rw [if_neg hnew,
        ih (fun x hx => hcfg x (List.mem_cons_of_mem _ hx))
           (fun x hx => hlat x (List.mem_cons_of_mem _ hx))]
      simp [anyNewerIn, hdb, hnew]

/-- When no scanned dependency is newer and some dependency lacks a
successful build, the `is_outdated` loop returns Python `None`. -/
theorem is_outdated_loop_missing (cfg : JCConfig) (st : SpecState)
    (ownEnd : Option Nat) :
    ∀ ds : List String,
      (∀ d ∈ ds, (get_job_config cfg d).isSome) →
      (∀ d ∈ ds, ∀ db, spec_get_latest_successful st d = Option.some db →
        py2_dt_gt db.end_time ownEnd = false) →
      (∃ d ∈ ds, spec_get_latest_successful st d = Option.none) →
      is_outdated_loop cfg st ownEnd ds = Except.ok Option.none := by
  intro ds
  induction ds with
  | nil => intro _ _ hex; simp at hex
  | cons d dtl ih =>
    intro hcfg hnew hex
    obtain ⟨jc, hjc⟩ := Option.isSome_iff_exists.mp
      (hcfg d (List.mem_cons_self _ _))
    cases hdb : spec_get_latest_successful st d with
    | none => rw [is_outdated_loop, hjc, hdb]
    | some db =>
      have hfalse := hnew d (List.mem_cons_self _ _) db hdb
      rw [is_outdated_loop, hjc, hdb]
      dsimp only
      rw [hfalse]
      rw [if_neg (by simp)]
      refine ih (fun x hx => hcfg x (List.mem_cons_of_mem _ hx))
        (fun x hx => hnew x (List.mem_cons_of_mem _ hx)) ?_
      obtain ⟨d', hd', hnone⟩ := hex
      rcases List.mem_cons.mp hd' with rfl | hmem
      · rw [hdb] at hnone; exact Option.noConfusion hnone
      · exact ⟨d', hmem, hnone⟩

/-- The C8 counterexample configuration: job `j` depends on `a` then `b`. -/
def c8_cfg1 : JCConfig :=
  [⟨"j", { dependencies := ["a", "b"] }⟩, ⟨"a", {}⟩, ⟨"b", {}⟩]

/-- The C8 counterexample state: `a` has a successful build ending at 10,
`j` one ending at 5, `b` has none. -/
def c8_st1 : SpecState :=
  { builds :=
      [{ id := 0, job_id := "a", start_time := Option.some 9,
         end_time := Option.some 10, started := true, finished := true,
         success := true, skipped := false, config := {} },
       { id := 1, job_id := "j", start_time := Option.some 4,
         end_time := Option.some 5, started := true, finished := true,
         success := true, skipped := false, config := {} }]
    seq := 2, now := 11 }

/-- The second C8 configuration: job `j` depends on `a` only. -/
def c8_cfg2 : JCConfig := [⟨"j", { dependencies := ["a"] }⟩, ⟨"a", {}⟩]

/-- The second C8 state: `j` has a successful build, `a` has none. -/
def c8_st2 : SpecState :=
  { builds :=
      [{ id := 0, job_id := "j", start_time := Option.some 4,
         end_time := Option.some 5, started := true, finished := true,
         success := true, skipped := false, config := {} }]
    seq := 1, now := 6 }

/-- Counterexample to C8 as stated: with dependency `b` lacking any
successful build, `is_outdated` still returns `True` (not the unknown
value) because the earlier dependency `a` is newer and the scan returns
before reaching `b`; and with dependency `a`'s success state unknown,
`get_status` labels the job `success`, not `outdated`, because Python
`None` is falsy in `if self.is_outdated():`. -/
theorem is_outdated_counterexample :
    (is_outdated c8_cfg1 c8_st1 "j" = Except.ok (Option.some true) ∧
     is_outdated c8_cfg1 c8_st1 "j" ≠ Except.ok Option.none) ∧
    (get_status c8_cfg2 c8_st2 "j" = Except.ok "success" ∧
     get_status c8_cfg2 c8_st2 "j" ≠ Except.ok "outdated") := by
  refine ⟨⟨rfl, ?_⟩, rfl, ?_⟩
  · intro h
    rw [show is_outdated c8_cfg1 c8_st1 "j" =
      Except.ok (Option.some true) from rfl] at h
    injection h with h'
    exact Option.noConfusion h'
  · intro h
    rw [show get_status c8_cfg2 c8_st2 "j" = Except.ok "success" from rfl] at h
    injection h with h'
    exact absurd h' (by decide)

/-- C8 amended: `is_outdated` returns the unknown value when the job
itself has no successful build; when the job has one and every declared
dependency exists and has a successful build, it returns exactly "some
dependency's latest successful build ended strictly later than the job's";
when no dependency is newer and some dependency lacks a successful build,
it returns unknown; and `get_status` labels the job `outdated` exactly
when it has a started-and-finished build and `is_outdated` returns `True`
(an unknown dependency state does not yield `outdated`). -/
theorem is_outdated_amended (cfg : JCConfig) (st : SpecState) (j : String) :
    (spec_get_latest_successful st j = Option.none →
      is_outdated cfg st j = Except.ok Option.none) ∧
    (∀ lb, spec_get_latest_successful st j = Option.some lb →
      (∀ d ∈ get_job_deps cfg j, (get_job_config cfg d).isSome) →
      (∀ d ∈ get_job_deps cfg j, (spec_get_latest_successful st d).isSome) →
      is_outdated cfg st j =
        Except.ok (Option.some (any_dep_newer cfg st j lb.end_time))) ∧
    (∀ lb, spec_get_latest_successful st j = Option.some lb →
      (∀ d ∈ get_job_deps cfg j, (get_job_config cfg d).isSome) →
      any_dep_newer cfg st j lb.end_time = false →
      (∃ d ∈ get_job_deps cfg j,
        spec_get_latest_successful st d = Option.none) →
      is_outdated cfg st j = Except.ok Option.none) ∧
    (get_status cfg st j = Except.ok "outdated" ↔
      has_builds st j ∧ is_outdated cfg st j = Except.ok (Option.some true)) := by
  refine ⟨?_, ?_, ?_, ?_⟩
  · intro hnone
    rw [is_outdated, hnone]
  · intro lb hlb hcfg hlat
    rw [is_outdated, hlb]
    dsimp only
    rw [any_dep_newer]
    exact is_outdated_loop_all cfg st lb.end_time (get_job_deps cfg j) hcfg hlat
  · intro lb hlb hcfg hnotnew hex
    rw [is_outdated, hlb]
    dsimp only
    refine is_outdated_loop_missing cfg st lb.end_time (get_job_deps cfg j)
      hcfg ?_ hex
    intro d hd db hdb
    rw [any_dep_newer, anyNewerIn] at hnotnew
    have hthis := List.any_eq_false.mp hnotnew d hd
    rw [hdb] at hthis
    simpa using hthis
  · constructor
    · intro h
      rw [get_status] at h
      by_cases hb : has_builds st j
      · rw [if_neg (by simpa using hb)] at h
        cases hio : is_outdated cfg st j with
        | error e => rw [hio] at h; exact Except.noConfusion h
        | ok r =>
          rw [hio] at h
          dsimp only at h
          cases r with
          | none =>
            by_cases hs : has_successful_builds st j <;>
              simp [optTruthy, hs] at h
          | some b =>
            cases b with
            | false =>
              by_cases hs : has_successful_builds st j <;>
                simp [optTruthy, hs] at h
            | true => exact ⟨hb, rfl⟩
      · rw [if_pos (by simpa using hb)] at h
        injection h with h'
        exact absurd h' (by decide)
    · rintro ⟨hb, hio⟩
      rw [get_status, if_neg (by simpa using hb), hio]
      rfl

/-- Witness for C8 (amended): with job `j` having a successful build, no
dependency newer, and dependency `a` lacking any successful build,
`is_outdated` returns the unknown value. -/
theorem is_outdated_amended_witness :
    is_outdated c8_cfg2 c8_st2 "j" = Except.ok Option.none := by
  refine (is_outdated_amended c8_cfg2 c8_st2 "j").2.2.1
    { id := 0, job_id := "j", start_time := Option.some 4,
      end_time := Option.some 5, started := true, finished := true,
      success := true, skipped := false, config := {} }
    (by rfl) (by decide) (by decide) ⟨"a", by decide, by rfl⟩


/-- Looking up a build after `spec_finish_apply` yields the finished
record with the storage defaults applied. -/
theorem spec_finish_apply_find (st : SpecState) (bid : Nat) (kw : FinishArgs)
    (brec : SpecBuild)
    (h : st.builds.find? (fun b => b.id == bid) = Option.some brec) :
    (spec_finish_apply st bid kw).builds.find? (fun b => b.id == bid) =
      Option.some
        { brec with
          finished := true
          end_time := Option.some st.now
          success := kw.success.getD true
          skipped := kw.skipped.getD false
          retval := kw.retval.getD PyVal.none
          exception := kw.exception.getD Option.none
          exception_tb := kw.exception_tb } := by
  exact find_map_update st.builds bid
    (fun b =>
      { b with
        finished := true
        end_time := Option.some st.now
        success := kw.success.getD true
        skipped := kw.skipped.getD false
        retval := kw.retval.getD PyVal.none
        exception := kw.exception.getD Option.none
        exception_tb := kw.exception_tb })
    (fun b => rfl) brec h

/-- C4: when the callable returns normally but persisting the success
fails (the return value is not serializable), the build is recorded as a
finished failure with the persistence exception and its traceback
captured, no exception escapes `run_build`, and the context stack is
restored.  The storage is the spec-conforming backend (`StorageBase` is
not among the sources); its `finish_build` validates the return value
before mutating, so the failed persist leaves the record untouched and the
fallback call records the failure. -/
theorem run_build_persist_failure_recorded
    (canStore : PyVal → Bool) (fenv : FuncEnv) (st : SpecState)
    (stack : List (String × Nat)) (bid : Nat) (brec : SpecBuild)
    (f : PyVal → PyVal → CallOutcome) (rv : PyVal)
    (hget : spec_get_build st bid = Except.ok brec)
    (hfn : get_runner_function fenv brec.config.function = Except.ok f)
    (hnorefs1 : retvalRefsList brec.config.args = [])
    (hnorefs2 : retvalRefsKvs brec.config.kwargs = [])
    (hcall : f (PyVal.tuple brec.config.args) (PyVal.dict brec.config.kwargs) =
      CallOutcome.ret rv)
    (hbad : canStore rv = false) :
    (run_build (specOps canStore) fenv st stack bid).raised = Option.none ∧
    (run_build (specOps canStore) fenv st stack bid).stack = stack ∧
    ((run_build (specOps canStore) fenv st stack bid).state.builds.find?
        (fun b => b.id == bid)).map
      (fun b => (b.finished, b.success, b.skipped, b.retval, b.exception,
        b.exception_tb)) =
      Option.some (true, false, false, PyVal.none,
        Option.some (PyErr.serializationError "retval is not serializable"),
        Option.some (Traceback.ofExc
          (PyErr.serializationError "retval is not serializable"))) := by
  have hfind := spec_get_build_find st bid brec hget
  obtain ⟨st1, hstart, hst1⟩ : ∃ st1, spec_start_build st bid = Except.ok st1 ∧
      st1 = { specUpdate st bid (fun b =>
          { b with started := true, start_time := Option.some st.now })
        with now := st.now + 1 } :=
    ⟨_, by rw [spec_start_build, hfind], rfl⟩
  have hfind1 : st1.builds.find? (fun b => b.id == bid) =
      Option.some
        { brec with started := true, start_time := Option.some st.now } := by
    rw [hst1]
    exact find_map_update st.builds bid
      (fun b => { b with started := true, start_time := Option.some st.now })
      (fun b => rfl) brec hfind
  have hprep1 : prepare_args (specOps canStore) st1 brec.config
      (PyVal.tuple brec.config.args) =
      Except.ok (PyVal.tuple brec.config.args) := by
    rw [prepare_args_subst (specOps canStore) st1 brec.config
      (PyVal.tuple brec.config.args)
      (by intro jj hj; rw [retvalRefs, hnorefs1] at hj; simp at hj)]
    rw [substRetvals, substRetvalsList_norefs _ _ hnorefs1]
  have hprep2 : prepare_args (specOps canStore) st1 brec.config
      (PyVal.dict brec.config.kwargs) =
      Except.ok (PyVal.dict brec.config.kwargs) := by
    rw [prepare_args_subst (specOps canStore) st1 brec.config
      (PyVal.dict brec.config.kwargs)
      (by intro jj hj; rw [retvalRefs, hnorefs2] at hj; simp at hj)]
    rw [substRetvals, substRetvalsKvs_norefs _ _ hnorefs2]
  have hphase : build_phase (specOps canStore) fenv st1 brec =
      Except.ok rv := by
    simp only [specOps] at hprep1 hprep2
    simp only [build_phase, specOps, hfn, hprep1, hprep2, hcall]
  have hfin1 : spec_finish_build canStore st1 bid
      { success := Option.some true, skipped := Option.some false,
        retval := Option.some rv, exception := Option.some Option.none } =
      Except.error (PyErr.serializationError "retval is not serializable") := by
    rw [spec_finish_build, hfind1]
    dsimp only
    rw [hbad]
    simp
  have hfin2 : spec_finish_build canStore st1 bid
      { success := Option.some false,
        exception := Option.some (Option.some
          (PyErr.serializationError "retval is not serializable")),
        exception_tb := Option.some (Traceback.ofExc
          (PyErr.serializationError "retval is not serializable")) } =
      Except.ok (spec_finish_apply st1 bid
        { success := Option.some false,
          exception := Option.some (Option.some
            (PyErr.serializationError "retval is not serializable")),
          exception_tb := Option.some (Traceback.ofExc
            (PyErr.serializationError "retval is not serializable")) }) := by
    rw [spec_finish_build, hfind1]
  have hrun : run_build (specOps canStore) fenv st stack bid =
      ⟨Option.none, spec_finish_apply st1 bid
        { success := Option.some false,
          exception := Option.some (Option.some
            (PyErr.serializationError "retval is not serializable")),
          exception_tb := Option.some (Traceback.ofExc
            (PyErr.serializationError "retval is not serializable")) },
        stack⟩ := by
    simp only [specOps] at hphase
    simp only [run_build, specOps, hget, hstart, hphase, hfin1, hfin2,
      List.tail_cons]
  refine ⟨by rw [hrun], by rw [hrun], ?_⟩
  rw [hrun]
  rw [spec_finish_apply_find st1 bid _ _ hfind1]
  rfl

/-- The C4 witness build record: job `j`, callable `m:f`, no arguments. -/
def c4_brec : SpecBuild :=
  { id := 0, job_id := "j", config := { function := Option.some "m:f" } }

/-- The C4 witness storage state holding the single build. -/
def c4_st : SpecState := { builds := [c4_brec], seq := 1, now := 0 }

/-- A function environment whose every callable returns the integer 5. -/
def c4_fenv : FuncEnv :=
  fun _ => Option.some (fun _ _ => CallOutcome.ret (PyVal.int 5))

/-- Witness for C4: with a backend that can serialize nothing, the
returned 5 cannot be persisted and the build ends up recorded as a failed
persist. -/
theorem run_build_persist_failure_recorded_witness :
    (run_build (specOps (fun _ => false)) c4_fenv c4_st [] 0).raised =
      Option.none ∧
    (run_build (specOps (fun _ => false)) c4_fenv c4_st [] 0).stack = [] ∧
    ((run_build (specOps (fun _ => false)) c4_fenv c4_st [] 0).state.builds.find?
        (fun b => b.id == 0)).map
      (fun b => (b.finished, b.success, b.skipped, b.retval, b.exception,
        b.exception_tb)) =
      Option.some (true, false, false, PyVal.none,
        Option.some (PyErr.serializationError "retval is not serializable"),
        Option.some (Traceback.ofExc
          (PyErr.serializationError "retval is not serializable"))) :=
  run_build_persist_failure_recorded (fun _ => false) c4_fenv c4_st [] 0
    c4_brec (fun _ _ => CallOutcome.ret (PyVal.int 5)) (PyVal.int 5)
    rfl rfl rfl rfl rfl rfl

/-- The update `MemoryStorage.finish_build` applies on the skip path
(`finish_build(build_id, skipped=True)`: `success` keeps its `True`
default, `retval` its `None` default). -/
def memSkipFinish (now : Nat) (b : MemBuild) : MemBuild :=
  { b with
    finished := true
    end_time := Option.some now
    success := true
    skipped := true
    retval := PyVal.none
    exception := Option.none
    exception_tb := Option.none }

/-- C5: a callable that raises `SkipBuild` gets its build recorded as
finished, successful (`finish_build` keeps its `success=True` default — the
handler passes only `skipped=True`), skipped, with no return value; no
exception escapes and the context stack is restored.  The first three
conjuncts run the engine over the spec-conforming backend; the last states
that `MemoryStorage.finish_build` accepts exactly this call (only the
`skipped` keyword binds fine) and stores the same outcome, so the path is
intact on the reference backend as well. -/
theorem run_build_skip_recorded
    (canStore : PyVal → Bool) (fenv : FuncEnv) (st : SpecState)
    (stack : List (String × Nat)) (bid : Nat) (brec : SpecBuild)
    (f : PyVal → PyVal → CallOutcome)
    (hget : spec_get_build st bid = Except.ok brec)
    (hfn : get_runner_function fenv brec.config.function = Except.ok f)
    (hnorefs1 : retvalRefsList brec.config.args = [])
    (hnorefs2 : retvalRefsKvs brec.config.kwargs = [])
    (hcall : f (PyVal.tuple brec.config.args) (PyVal.dict brec.config.kwargs) =
      CallOutcome.exc PyErr.skipBuild) :
    (run_build (specOps canStore) fenv st stack bid).raised = Option.none ∧
    (run_build (specOps canStore) fenv st stack bid).stack = stack ∧
    ((run_build (specOps canStore) fenv st stack bid).state.builds.find?
        (fun b => b.id == bid)).map
      (fun b => (b.finished, b.success, b.skipped, b.retval, b.exception)) =
      Option.some (true, true, true, PyVal.none, Option.none) ∧
    (∀ (mst : MemState) (bid2 : Nat) (mrec : MemBuild),
      mst.builds.find? (fun b => b.id == bid2) = Option.some mrec →
      mem_finish_build mst bid2 { skipped := Option.some true } =
        Except.ok
          { memUpdate mst bid2 (memSkipFinish mst.now) with
            now := mst.now + 1 } ∧
      ({ memUpdate mst bid2 (memSkipFinish mst.now) with
          now := mst.now + 1 } : MemState).builds.find?
            (fun b => b.id == bid2) =
        Option.some (memSkipFinish mst.now mrec)) := by
  have hfind := spec_get_build_find st bid brec hget
  obtain ⟨st1, hstart, hst1⟩ : ∃ st1, spec_start_build st bid = Except.ok st1 ∧
      st1 = { specUpdate st bid (fun b =>
          { b with started := true, start_time := Option.some st.now })
        with now := st.now + 1 } :=
    ⟨_, by rw [spec_start_build, hfind], rfl⟩
  have hfind1 : st1.builds.find? (fun b => b.id == bid) =
      Option.some
        { brec with started := true, start_time := Option.some st.now } := by
    rw [hst1]
    exact find_map_update st.builds bid
      (fun b => { b with started := true, start_time := Option.some st.now })
      (fun b => rfl) brec hfind
  have hprep1 : prepare_args (specOps canStore) st1 brec.config
      (PyVal.tuple brec.config.args) =
      Except.ok (PyVal.tuple brec.config.args) := by
    rw [prepare_args_subst (specOps canStore) st1 brec.config
      (PyVal.tuple brec.config.args)
      (by intro jj hj; rw [retvalRefs, hnorefs1] at hj; simp at hj)]
    rw [substRetvals, substRetvalsList_norefs _ _ hnorefs1]
  have hprep2 : prepare_args (specOps canStore) st1 brec.config
      (PyVal.dict brec.config.kwargs) =
      Except.ok (PyVal.dict brec.config.kwargs) := by
    rw [prepare_args_subst (specOps canStore) st1 brec.config
      (PyVal.dict brec.config.kwargs)
      (by intro jj hj; rw [retvalRefs, hnorefs2] at hj; simp at hj)]
    rw [substRetvals, substRetvalsKvs_norefs _ _ hnorefs2]
  have hphase : build_phase (specOps canStore) fenv st1 brec =
      Except.error PyErr.skipBuild := by
    simp only [specOps] at hprep1 hprep2
    simp only [build_phase, specOps, hfn, hprep1, hprep2, hcall]
  have hfin : spec_finish_build canStore st1 bid
      { skipped := Option.some true } =
      Except.ok (spec_finish_apply st1 bid { skipped := Option.some true }) := by
    rw [spec_finish_build, hfind1]
  have hrun : run_build (specOps canStore) fenv st stack bid =
      ⟨Option.none, spec_finish_apply st1 bid { skipped := Option.some true },
        stack⟩ := by
    simp only [specOps] at hphase
    simp only [run_build, specOps, hget, hstart, hphase, hfin, List.tail_cons]
  refine ⟨by rw [hrun], by rw [hrun], ?_, ?_⟩
  · rw [hrun]
    rw [spec_finish_apply_find st1 bid _ _ hfind1]
    rfl
  · intro mst bid2 mrec hf
    constructor
    · show (match mst.builds.find? (fun b => b.id == bid2) with
        | Option.none => Except.error (PyErr.notFound "No such build")
        | Option.some _ => Except.ok
          { memUpdate mst bid2 (fun b =>
              { b with
                finished := true
                end_time := Option.some mst.now
                success := (Option.none : Option Bool).getD true
                skipped := (Option.some true).getD false
                retval := (Option.none : Option PyVal).getD PyVal.none
                exception := (Option.none : Option (Option PyErr)).getD
                  Option.none
                exception_tb := Option.none }) with
            now := mst.now + 1 }) = _
      rw [hf]
      rfl
    · exact find_map_update_mem mst.builds bid2 (memSkipFinish mst.now)
        (fun b => rfl) mrec hf

/-- The C5 witness build record: job `j`, callable `m:s`, no arguments. -/
def c5_brec : SpecBuild :=
  { id := 0, job_id := "j", config := { function := Option.some "m:s" } }

/-- The C5 witness storage state holding the single build. -/
def c5_st : SpecState := { builds := [c5_brec], seq := 1, now := 0 }

/-- A function environment whose every callable raises `SkipBuild`. -/
def c5_fenv : FuncEnv :=
  fun _ => Option.some (fun _ _ => CallOutcome.exc PyErr.skipBuild)

/-- The C5 witness memory state: one build of job `j` with id 0. -/
def c5_mst : MemState := (mem_create_build {} "j" {} PyVal.none).1

/-- The record stored in `c5_mst`. -/
def c5_mrec : MemBuild := { id := 0, job_id := "j", job_config := {} }

/-- Witness for C5: a skipping callable on a singleton store ends up
recorded finished, successful and skipped, and `MemoryStorage.finish_build`
accepts and stores the same skip outcome. -/
theorem run_build_skip_recorded_witness :
    (run_build (specOps (fun _ => true)) c5_fenv c5_st [] 0).raised =
      Option.none ∧
    ((run_build (specOps (fun _ => true)) c5_fenv c5_st [] 0).state.builds.find?
        (fun b => b.id == 0)).map
      (fun b => (b.finished, b.success, b.skipped, b.retval, b.exception)) =
      Option.some (true, true, true, PyVal.none, Option.none) ∧
    mem_finish_build c5_mst 0 { skipped := Option.some true } =
      Except.ok
        { memUpdate c5_mst 0 (memSkipFinish c5_mst.now) with
          now := c5_mst.now + 1 } := by
  have h := run_build_skip_recorded (fun _ => true) c5_fenv c5_st [] 0 c5_brec
    (fun _ _ => CallOutcome.exc PyErr.skipBuild) rfl rfl rfl rfl rfl
  exact ⟨h.1, h.2.2.1, (h.2.2.2 c5_mst 0 c5_mrec rfl).1⟩

/-- C10: `MemoryStorage.get_build` and `MemoryStorage.get_job_builds`
return `copy.deepcopy` of each stored record, analysed over the addressed
heap model of the object graphs.  For `get_build`: the call succeeds, the
returned root is a fresh address, it reads back to exactly the stored
value, and for every in-place mutation of the returned copy (overwriting a
fresh cell with any acyclic node) every stored record reads back unchanged
and a second `get_build` of the same id still reads back the original
value.  For `get_job_builds`: the original region is untouched and every
yielded record is a fresh copy whose readout is independent of the
original region. -/
theorem get_build_deepcopy_isolation
    (hs : HeapStorage) (build_id : Nat) (entry : Nat × Nat)
    (hwf : WFh hs.heap)
    (hfind : hs.builds.find? (fun e => e.1 == build_id) = Option.some entry)
    (hbound : entry.2 < hs.heap.length) :
    (∃ h2 r, heap_get_build hs build_id = Option.some (h2, r) ∧
      hs.heap.length ≤ r ∧ r < h2.length ∧
      (∀ g, readF g h2 r = readF g hs.heap entry.2) ∧
      (∀ m o, hs.heap.length ≤ m → m < h2.length →
        (∀ cs, o = HNode.comp cs → ∀ c ∈ cs, c < m) →
        (∀ g baddr, baddr < hs.heap.length →
          readF g (h2.set m o) baddr = readF g hs.heap baddr) ∧
        (∃ h3 r3,
          heap_get_build { heap := h2.set m o, builds := hs.builds }
              build_id = Option.some (h3, r3) ∧
          ∀ g, readF g h3 r3 = readF g hs.heap entry.2))) ∧
    (∀ (sel : List Nat) (H : Heap) (rs : List Nat),
      (∀ a ∈ sel, a < hs.heap.length) →
      heap_get_job_builds hs.heap sel = Option.some (H, rs) →
      (∀ i, i < hs.heap.length → H[i]? = hs.heap[i]?) ∧
      (∀ r2 ∈ rs, hs.heap.length ≤ r2 ∧ r2 < H.length ∧
        (∀ g (hx : Heap),
          (∀ i, hs.heap.length ≤ i → i < H.length → hx[i]? = H[i]?) →
          readF g hx r2 = readF g H r2))) := by
  constructor
  · have hsome : (copyF (entry.2 + 1) hs.heap entry.2).isSome :=
      (copyF_total (entry.2 + 1)).1 hs.heap entry.2 hwf hbound
        (Nat.lt_succ_self _)
    cases hc : copyF (entry.2 + 1) hs.heap entry.2 with
    | none => rw [hc] at hsome; simp at hsome
    | some pr =>
      obtain ⟨h2, r⟩ := pr
      have hcf := (copyF_spec (entry.2 + 1)).1 hs.heap entry.2 h2 r hwf hc
      have hgb1 : heap_get_build hs build_id = Option.some (h2, r) := by
        rw [heap_get_build, hfind]
        exact hc
      refine ⟨h2, r, hgb1, hcf.r_lo, hcf.r_hi, hcf.faithful, ?_⟩
      intro m o hm1 hm2 ho
      have hstable := stored_reads_stable hs.heap h2 hcf.prefix_eq hwf m hm1 o
      refine ⟨hstable, ?_⟩
      have hwfm : WFh (h2.set m o) := by
        intro i hi cs hgc c hc2
        rw [List.length_set] at hi
        by_cases him : i = m
        · subst him
          rw [List.getElem?_set_self hi] at hgc
          injection hgc with he
          exact ho cs he c hc2
        · rw [List.getElem?_set_ne (by omega)] at hgc
          exact hcf.wf i hi cs hgc c hc2
      have hsome2 : (copyF (entry.2 + 1) (h2.set m o) entry.2).isSome :=
        (copyF_total (entry.2 + 1)).1 (h2.set m o) entry.2 hwfm
          (by rw [List.length_set]; omega) (Nat.lt_succ_self _)
      cases hc2 : copyF (entry.2 + 1) (h2.set m o) entry.2 with
      | none => rw [hc2] at hsome2; simp at hsome2
      | some pr2 =>
        obtain ⟨h3, r3⟩ := pr2
        have hcf2 := (copyF_spec (entry.2 + 1)).1 (h2.set m o) entry.2 h3 r3
          hwfm hc2
        have hgb2 : heap_get_build { heap := h2.set m o, builds := hs.builds }
            build_id = Option.some (h3, r3) := by
          rw [heap_get_build]
          dsimp only
          rw [hfind]
          exact hc2
        refine ⟨h3, r3, hgb2, ?_⟩
        intro g
        rw [hcf2.faithful g]
        exact hstable g entry.2 hbound
  · intro sel H rs hsel hrun
    obtain ⟨_, _, hpre, hfacts⟩ :=
      heap_get_job_builds_facts sel hs.heap H rs hwf hsel hrun
    exact ⟨hpre, hfacts⟩

/-- The C10 witness storage: build 0 stored at address 1, a one-field
record (`comp [0]`) whose field is the atom 7 at address 0. -/
def c10_hs : HeapStorage :=
  { heap := [HNode.atom 7, HNode.comp [0]], builds := [(0, 1)] }

/-- Witness for C10: the witness heap is well-formed, build 0 resolves to
address 1, and `get_build` returns a fresh faithful copy of it. -/
theorem get_build_deepcopy_isolation_witness :
    WFh c10_hs.heap ∧
    c10_hs.builds.find? (fun e => e.1 == 0) = Option.some (0, 1) ∧
    (∃ h2 r, heap_get_build c10_hs 0 = Option.some (h2, r) ∧
      c10_hs.heap.length ≤ r ∧
      (∀ g, readF g h2 r = readF g c10_hs.heap 1)) := by
  have hwf : WFh c10_hs.heap := by
    intro i hi cs hgc c hc
    have hi2 : i < 2 := by simpa [c10_hs] using hi
    simp only [c10_hs] at hgc
    interval_cases i
    · simp at hgc
    · rw [show ([HNode.atom 7, HNode.comp [0]] : Heap)[1]? =
        Option.some (HNode.comp [0]) from rfl] at hgc
      injection hgc with he
      injection he with hcs
      subst hcs
      simp at hc
      omega
  obtain ⟨⟨h2, r, hgb, hlo, _, hfaith, _⟩, _⟩ :=
    get_build_deepcopy_isolation c10_hs 0 (0, 1) hwf rfl (by decide)
  exact ⟨hwf, rfl, h2, r, hgb, hlo, hfaith⟩
